import Mathlib

/-!
# Wellness-session backend (`src/backend/server.js`)

A shallow embedding of the Express route handlers of `server.js` over an explicit
document store, and the properties of the session lifecycle proved about them.

Modelling conventions

* The two Mongoose collections are lists of documents in insertion order.
  `save` appends a document and is rejected (the handler answers 500) when the
  `_id` is already present or, for users, when the unique `email` index is violated.
* What the handlers read from their environment is passed in explicitly as an `Env`:
  the clock reading of `new Date()` / `Date.now`, the `ObjectId` the driver generates
  for a constructed document, and the salt drawn by `bcrypt.hash`.
* `bcrypt` is a parameter (`Bcrypt`); a JSON web token is either one signed for a user
  id or one that fails verification.
* Request fields are `Option String`: `none` is an absent (`undefined` / `null`) field.
  A session id in a request is either a well-formed `ObjectId` or a string that the
  driver cannot cast (the query then throws and the handler answers 500).
* The `json_file_url` of a request body is absent, `null` or a string. An update
  document is applied as Mongoose sends it: a path whose value is `undefined` is removed
  from it, so a body without the key leaves the stored URL as it is, while `null` clears
  it. A stored URL is `Option String`, `none` for a document without one.
* A new session reads the clock twice, once for each of the schema defaults
  `created_at` and `updated_at`; an update reads it once, for `new Date()`.
* Strings are sequences of Unicode characters.
-/

namespace Arvyax

/-! ## Data model -/

abbrev ObjectId := Nat

/-- Milliseconds since the epoch, the value of a JavaScript `Date`. -/
abbrev Date := Nat

/-- The `enum: ['draft', 'published']` of `sessionSchema.status`. -/
inductive Status where
  | draft
  | published
  deriving DecidableEq, Repr

/-- A document of `userSchema`. -/
structure User where
  id : ObjectId
  email : String
  password_hash : String
  created_at : Date
  deriving DecidableEq, Repr

/-- A document of `sessionSchema`. -/
structure Session where
  id : ObjectId
  user_id : ObjectId
  title : String
  tags : List String
  json_file_url : Option String
  status : Status
  created_at : Date
  updated_at : Date
  deriving DecidableEq, Repr

/-- The database: the `User` and the `Session` collection. -/
structure Store where
  users : List User
  sessions : List Session
  deriving DecidableEq, Repr

/-- The database before any request. -/
def Store.empty : Store := ⟨[], []⟩

/-- What a handler reads from outside the store while it runs: the clock reading of
`new Date()` or of the first `Date.now` default, the `ObjectId` generated for a new
document, the salt drawn by `bcrypt.hash`, and the clock reading of the second
`Date.now` default of a new session (`updated_at`, after `created_at`). -/
structure Env where
  now : Date
  objectId : ObjectId
  salt : Nat
  nowAgain : Date
  deriving DecidableEq, Repr

/-- The password-hash collaborator: `bcrypt.hash` (with the salt it draws) and
`bcrypt.compare`. -/
structure Bcrypt where
  hash : String → Nat → String
  compare : String → String → Bool

/-- A bearer token: one produced by `jwt.sign` for a user id, or anything that
`jwt.verify` rejects. -/
inductive Token where
  | signed (userId : ObjectId)
  | forged
  deriving DecidableEq, Repr

/-- The `jwt.sign` call of the register and login handlers, payload `userId`. -/
def jwtSign (userId : ObjectId) : Token := Token.signed userId

/-- The `jwt.verify` call: the decoded `userId`, or `none` when it throws. -/
def jwtVerify : Token → Option ObjectId
  | Token.signed u => some u
  | Token.forged => none

/-- A session id as it arrives in a request. -/
inductive IdArg where
  | oid (i : ObjectId)
  | malformed
  deriving DecidableEq, Repr

/-- The member `json_file_url` of a request body: the key is absent (the destructured
variable is `undefined`), or its value is `null`, or it is a string. -/
inductive UrlField where
  | absent
  | null
  | str (s : String)
  deriving DecidableEq, Repr

/-- The body of `POST /my-sessions/save-draft` and `POST /my-sessions/publish`.
`id = none` is a falsy id (absent or `null`, as the client sends for a new session). -/
structure SessionInput where
  id : Option IdArg
  title : Option String
  tags : Option String
  json_file_url : UrlField
  deriving DecidableEq, Repr

/-- A session of the public listing, after `populate('user_id', 'email')`. -/
structure PublicSession where
  session : Session
  owner_email : Option String
  deriving DecidableEq, Repr

/-- The JSON payloads the handlers send. -/
inductive Body where
  | error (msg : String)
  | auth (token : Token) (id : ObjectId) (email : String)
  | published (l : List PublicSession)
  | sessions (l : List Session)
  | session (s : Option Session)
  deriving DecidableEq, Repr

/-- An HTTP response: status code and JSON body. -/
structure Response where
  status : Nat
  body : Body
  deriving DecidableEq, Repr

/-! ## String helpers: `String.prototype.split` and `String.prototype.trim` -/

/-- The code points `trim` strips: ECMAScript WhiteSpace and LineTerminator. -/
def isWhiteSpace (c : Char) : Bool :=
  let n := c.toNat
  n == 0x09 || n == 0x0A || n == 0x0B || n == 0x0C || n == 0x0D || n == 0x20
    || n == 0xA0 || n == 0x1680 || (0x2000 ≤ n && n ≤ 0x200A) || n == 0x2028
    || n == 0x2029 || n == 0x202F || n == 0x205F || n == 0x3000 || n == 0xFEFF

/-- Splitting a character sequence at every occurrence of `sep`. -/
def splitChars (sep : Char) : List Char → List (List Char)
  | [] => [[]]
  | c :: cs =>
    if c = sep then [] :: splitChars sep cs
    else
      match splitChars sep cs with
      | [] => [[c]]
      | p :: ps => (c :: p) :: ps

/-- The call `s.split(sep)` for a one-character separator. -/
def split (s : String) (sep : Char) : List String :=
  (splitChars sep s.data).map String.mk

/-- Stripping white space from both ends of a character sequence. -/
def trimChars (cs : List Char) : List Char :=
  ((cs.dropWhile isWhiteSpace).reverse.dropWhile isWhiteSpace).reverse

/-- The call `s.trim()`. -/
def trim (s : String) : String := String.mk (trimChars s.data)

/-- The line `tags ? tags.split(',').map(tag => tag.trim()) : []` of both write handlers. -/
def tagsArray (tags : Option String) : List String :=
  match tags with
  | none => []
  | some s => if s = "" then [] else (split s ',').map trim

/-! ## Collection operations -/

/-- The call `user.save()`: rejected on a duplicate `_id` or a duplicate `email`
(the schema declares `unique: true`). -/
def saveUser (σ : Store) (u : User) : Option Store :=
  if σ.users.any (fun v => v.id == u.id || v.email == u.email) then none
  else some { σ with users := σ.users ++ [u] }

/-- The call `session.save()` on a new document: rejected on a duplicate `_id`. -/
def saveSession (σ : Store) (s : Session) : Option Store :=
  if σ.sessions.any (fun v => v.id == s.id) then none
  else some { σ with sessions := σ.sessions ++ [s] }

/-- The `json_file_url` of a document constructed by `new Session({ ..., json_file_url })`. -/
def UrlField.stored : UrlField → Option String
  | UrlField.absent => none
  | UrlField.null => none
  | UrlField.str s => some s

/-- The `json_file_url` of a document with stored value `old` after an update document
`{ ..., json_file_url }`: an `undefined` value is removed from the update document, so
the stored value stays; `null` and a string are assigned. -/
def UrlField.assign : UrlField → Option String → Option String
  | UrlField.absent, old => old
  | UrlField.null, _ => none
  | UrlField.str s, _ => some s

/-- The call `Session.findOneAndUpdate(filter, update, { new: true })` on the collection:
the first document matching `p` is replaced by `f` of it, and returned; `none` when no
document matches. The function `f` is the update document of the handler. -/
def findOneAndUpdate (p : Session → Bool) (f : Session → Session) :
    List Session → Option Session × List Session
  | [] => (none, [])
  | s :: ss =>
    if p s then (some (f s), f s :: ss)
    else ((findOneAndUpdate p f ss).1, s :: (findOneAndUpdate p f ss).2)

/-- The join `populate('user_id', 'email')` for one session. -/
def populate (σ : Store) (s : Session) : PublicSession :=
  ⟨s, (σ.users.find? (fun u => u.id == s.user_id)).map (fun u => u.email)⟩

/-- The order `sort({ created_at: -1 })`. -/
def createdDesc (a b : Session) : Prop := b.created_at ≤ a.created_at

instance : DecidableRel createdDesc := fun a b => Nat.decLe b.created_at a.created_at

instance : IsTotal Session createdDesc := ⟨fun a b => Nat.le_total b.created_at a.created_at⟩

instance : IsTrans Session createdDesc := ⟨fun _ _ _ hab hbc => Nat.le_trans hbc hab⟩

/-- The order `sort({ updated_at: -1 })`. -/
def updatedDesc (a b : Session) : Prop := b.updated_at ≤ a.updated_at

instance : DecidableRel updatedDesc := fun a b => Nat.decLe b.updated_at a.updated_at

/-! ## Route handlers -/

def badRequest (msg : String) : Response := ⟨400, Body.error msg⟩

def serverError : Response := ⟨500, Body.error "Server error"⟩

def notFound : Response := ⟨404, Body.error "Session not found"⟩

/-- The handler of `POST /register`. -/
def register (B : Bcrypt) (env : Env) (σ : Store) (email password : Option String) :
    Store × Response :=
  match email, password with
  | some e, some p =>
    if e = "" ∨ p = "" then (σ, badRequest "Email and password required")
    else
      match σ.users.find? (fun u => u.email == e) with
      | some _ => (σ, badRequest "User already exists")
      | none =>
        let user : User := ⟨env.objectId, e, B.hash p env.salt, env.now⟩
        match saveUser σ user with
        | none => (σ, serverError)
        | some σ' => (σ', ⟨201, Body.auth (jwtSign user.id) user.id user.email⟩)
  | _, _ => (σ, badRequest "Email and password required")

/-- The handler of `POST /login`. -/
def login (B : Bcrypt) (σ : Store) (email password : Option String) : Store × Response :=
  match email, password with
  | some e, some p =>
    if e = "" ∨ p = "" then (σ, badRequest "Email and password required")
    else
      match σ.users.find? (fun u => u.email == e) with
      | none => (σ, badRequest "Invalid credentials")
      | some user =>
        if B.compare p user.password_hash then
          (σ, ⟨200, Body.auth (jwtSign user.id) user.id user.email⟩)
        else (σ, badRequest "Invalid credentials")
  | _, _ => (σ, badRequest "Email and password required")

/-- The handler of `GET /sessions`. -/
def listPublished (σ : Store) : Response :=
  ⟨200, Body.published
    (((σ.sessions.filter (fun s => s.status == Status.published)).insertionSort
      createdDesc).map (populate σ))⟩

/-- The sessions `GET /my-sessions` sends for the verified `userId`. -/
def mySessions (σ : Store) (userId : ObjectId) : List Session :=
  (σ.sessions.filter (fun s => s.user_id == userId)).insertionSort updatedDesc

/-- The handler of `GET /my-sessions`, after `authenticateToken`. -/
def listMine (σ : Store) (userId : ObjectId) : Response :=
  ⟨200, Body.sessions (mySessions σ userId)⟩

/-- The handler of `GET /my-sessions/:id`, after `authenticateToken`. -/
def getMine (σ : Store) (userId : ObjectId) (id : IdArg) : Response :=
  match id with
  | IdArg.malformed => serverError
  | IdArg.oid i =>
    match σ.sessions.find? (fun s => s.id == i && s.user_id == userId) with
    | none => notFound
    | some s => ⟨200, Body.session (some s)⟩

/-- The handler of `POST /my-sessions/save-draft`, after `authenticateToken`. -/
def saveDraft (env : Env) (σ : Store) (userId : ObjectId) (body : SessionInput) :
    Store × Response :=
  match body.title with
  | none => (σ, badRequest "Title required")
  | some title =>
    if title = "" then (σ, badRequest "Title required")
    else
      match body.id with
      | some IdArg.malformed => (σ, serverError)
      | some (IdArg.oid i) =>
        let r := findOneAndUpdate (fun s => s.id == i && s.user_id == userId)
          (fun s => { s with
            title := title, tags := tagsArray body.tags,
            json_file_url := body.json_file_url.assign s.json_file_url,
            updated_at := env.now })
          σ.sessions
        ({ σ with sessions := r.2 }, ⟨200, Body.session r.1⟩)
      | none =>
        let session : Session :=
          ⟨env.objectId, userId, title, tagsArray body.tags, body.json_file_url.stored,
            Status.draft, env.now, env.nowAgain⟩
        match saveSession σ session with
        | none => (σ, serverError)
        | some σ' => (σ', ⟨200, Body.session (some session)⟩)

/-- The handler of `POST /my-sessions/publish`, after `authenticateToken`. -/
def publish (env : Env) (σ : Store) (userId : ObjectId) (body : SessionInput) :
    Store × Response :=
  match body.title with
  | none => (σ, badRequest "Title required")
  | some title =>
    if title = "" then (σ, badRequest "Title required")
    else
      match body.id with
      | some IdArg.malformed => (σ, serverError)
      | some (IdArg.oid i) =>
        let r := findOneAndUpdate (fun s => s.id == i && s.user_id == userId)
          (fun s => { s with
            title := title, tags := tagsArray body.tags,
            json_file_url := body.json_file_url.assign s.json_file_url,
            status := Status.published,
            updated_at := env.now })
          σ.sessions
        ({ σ with sessions := r.2 }, ⟨200, Body.session r.1⟩)
      | none =>
        let session : Session :=
          ⟨env.objectId, userId, title, tagsArray body.tags, body.json_file_url.stored,
            Status.published, env.now, env.nowAgain⟩
        match saveSession σ session with
        | none => (σ, serverError)
        | some σ' => (σ', ⟨200, Body.session (some session)⟩)

/-- The middleware `authenticateToken` in front of a protected handler `next`. -/
def authenticateToken (auth : Option Token) (σ : Store)
    (next : ObjectId → Store × Response) : Store × Response :=
  match auth with
  | none => (σ, ⟨401, Body.error "Access token required"⟩)
  | some token =>
    match jwtVerify token with
    | none => (σ, ⟨403, Body.error "Invalid token"⟩)
    | some userId => next userId

/-- The requests the server routes. -/
inductive Request where
  | register (email password : Option String)
  | login (email password : Option String)
  | listPublished
  | listMine (auth : Option Token)
  | getMine (auth : Option Token) (id : IdArg)
  | saveDraft (auth : Option Token) (body : SessionInput)
  | publish (auth : Option Token) (body : SessionInput)
  deriving DecidableEq, Repr

/-- One request served by the application. -/
def handle (B : Bcrypt) (env : Env) (σ : Store) : Request → Store × Response
  | Request.register e p => register B env σ e p
  | Request.login e p => login B σ e p
  | Request.listPublished => (σ, listPublished σ)
  | Request.listMine auth => authenticateToken auth σ (fun u => (σ, listMine σ u))
  | Request.getMine auth id => authenticateToken auth σ (fun u => (σ, getMine σ u id))
  | Request.saveDraft auth body => authenticateToken auth σ (fun u => saveDraft env σ u body)
  | Request.publish auth body => authenticateToken auth σ (fun u => publish env σ u body)

/-- The store after serving a sequence of requests, each with its environment. -/
def run (B : Bcrypt) : Store → List (Env × Request) → Store
  | σ, [] => σ
  | σ, (env, r) :: t => run B (handle B env σ r).1 t

/-- Session ids are unique in the collection (the `_id` index). -/
def Store.WF (σ : Store) : Prop := (σ.sessions.map (fun s => s.id)).Nodup

instance (σ : Store) : Decidable σ.WF :=
  List.nodupDecidable (σ.sessions.map (fun s : Session => s.id))

/-- What one step keeps: unique ids, and for every session a session with the same id
that is published if the former was. -/
def Keeps (σ σ' : Store) : Prop :=
  (σ.WF → σ'.WF)
  ∧ ∀ s ∈ σ.sessions, ∃ s' ∈ σ'.sessions,
      s'.id = s.id ∧ (s.status = Status.published → s'.status = Status.published)

/-! ## Client editor (`src/frontend/src/App.jsx`)

The editor part of the `App` component. A function created during a render closes over
the `currentSession` and `editingId` of that render; the `onChange` handler that runs on
an edit is the one of the last render, so what it closes over is the state before the
edit. The browser's pending timeouts are kept in a table, with the ids `setTimeout`
returned (positive integers). -/

namespace Client

/-- The state `currentSession`: the three text fields of the editor. -/
structure CurrentSession where
  title : String
  tags : String
  json_file_url : String
  deriving DecidableEq, Repr

/-- The `field` argument of `handleInputChange`. -/
inductive Field where
  | title
  | tags
  | json_file_url
  deriving DecidableEq, Repr

/-- The values of `currentSession` and `editingId` in one render, which the functions
created in that render (`handleInputChange`, `saveDraft`, the timeout callback) see. -/
structure Render where
  currentSession : CurrentSession
  editingId : Option ObjectId
  deriving DecidableEq, Repr

/-- The editor: the component state, the ref `autoSaveTimer`, and the pending timeouts
of the browser, each with the render its callback was created in. -/
structure Editor where
  currentSession : CurrentSession
  editingId : Option ObjectId
  autoSaveTimer : Option Nat
  timers : List (Nat × Render)
  lastTimer : Nat
  deriving DecidableEq, Repr

/-- The editor as `newSession` opens it on first use: empty fields, no identifier, no
timeout. -/
def Editor.init : Editor := ⟨⟨"", "", ""⟩, none, none, [], 0⟩

/-- The update `prev => ({ ...prev, [field]: value })`. -/
def setField (prev : CurrentSession) : Field → String → CurrentSession
  | Field.title, value => { prev with title := value }
  | Field.tags, value => { prev with tags := value }
  | Field.json_file_url, value => { prev with json_file_url := value }

/-- The body `{ id: editingId, ...currentSession }` that `saveDraft` posts to
`/my-sessions/save-draft`, for the render the function was created in. -/
def saveDraft (r : Render) : SessionInput :=
  ⟨r.editingId.map IdArg.oid, some r.currentSession.title, some r.currentSession.tags,
    UrlField.str r.currentSession.json_file_url⟩

/-- The timeout callback `() => { if (currentSession.title.trim()) { saveDraft(); } }`:
the calls it issues. -/
def autoSave (r : Render) : List SessionInput :=
  if trim r.currentSession.title = "" then [] else [saveDraft r]

/-- The call `clearTimeout(id)`. -/
def clearTimeout (id : Nat) (timers : List (Nat × Render)) : List (Nat × Render) :=
  timers.filter (fun t => t.1 != id)

/-- The handler `handleInputChange(field, value)` of the render with state `e`. -/
def handleInputChange (e : Editor) (field : Field) (value : String) : Editor :=
  { currentSession := setField e.currentSession field value
    editingId := e.editingId
    autoSaveTimer := some (e.lastTimer + 1)
    timers :=
      (match e.autoSaveTimer with
        | some id => clearTimeout id e.timers
        | none => e.timers) ++ [(e.lastTimer + 1, ⟨e.currentSession, e.editingId⟩)]
    lastTimer := e.lastTimer + 1 }

/-- The countdown of timeout `id` elapses: the browser runs its callback if it is still
pending. The result is the editor and the `saveDraft` calls issued. -/
def timeout (e : Editor) (id : Nat) : Editor × List SessionInput :=
  match e.timers.find? (fun t => t.1 == id) with
  | none => (e, [])
  | some t => ({ e with timers := clearTimeout id e.timers }, autoSave t.2)

/-- Every pending timeout is the one the ref `autoSaveTimer` holds, and its id is one
that `setTimeout` has handed out. -/
def Editor.WF (e : Editor) : Prop :=
  ∀ t ∈ e.timers, e.autoSaveTimer = some t.1 ∧ t.1 ≤ e.lastTimer

instance (e : Editor) : Decidable e.WF :=
  List.decidableBAll (fun t : Nat × Render => e.autoSaveTimer = some t.1 ∧ t.1 ≤ e.lastTimer)
    e.timers

end Client

/-! ## Sample data

A small database and collaborators on which the statements below are evaluated. -/

/-- A password-hash collaborator for the samples: it ignores the salt. -/
def sampleBcrypt : Bcrypt := ⟨fun p _ => "h:" ++ p, fun p h => h == "h:" ++ p⟩

/-- Two users; user 1 owns a draft, user 2 owns a published session. -/
def sampleStore : Store :=
  ⟨[⟨1, "a@x.com", "h:pw", 1⟩, ⟨2, "b@x.com", "h:pw2", 2⟩],
   [⟨10, 1, "T1", ["x", "y"], none, Status.draft, 3, 3⟩,
    ⟨11, 2, "T2", [], some "https://x/s.json", Status.published, 4, 4⟩]⟩

/-- An environment whose generated id is unused in `sampleStore`. -/
def sampleEnv : Env := ⟨5, 12, 0, 6⟩

/-! ## Collection lemmas -/

theorem mem_mySessions {σ : Store} {u : ObjectId} {t : Session} :
    t ∈ mySessions σ u ↔ t ∈ σ.sessions ∧ t.user_id = u := by
  unfold mySessions
  rw [(List.perm_insertionSort updatedDesc _).mem_iff]
  simp [List.mem_filter]

theorem eq_of_mem_of_id_eq {σ : Store} (hwf : σ.WF) {s t : Session}
    (hs : s ∈ σ.sessions) (ht : t ∈ σ.sessions) (h : t.id = s.id) : t = s :=
  List.inj_on_of_nodup_map hwf ht hs h

theorem getMine_eq_notFound {σ : Store} {u i : ObjectId}
    (h : ∀ t ∈ σ.sessions, t.id = i → t.user_id ≠ u) :
    getMine σ u (IdArg.oid i) = notFound := by
  have hnone : σ.sessions.find? (fun s => s.id == i && s.user_id == u) = none := by
    rw [List.find?_eq_none]
    intro t ht
    simp only [Bool.and_eq_true, beq_iff_eq, not_and]
    exact h t ht
  simp [getMine, hnone]

theorem findOneAndUpdate_no_match (p : Session → Bool) (f : Session → Session) :
    ∀ l : List Session, (∀ t ∈ l, p t = false) → findOneAndUpdate p f l = (none, l)
  | [], _ => rfl
  | s :: ss, h => by
    have hs : p s = false := h s (List.mem_cons_self _ _)
    have ih := findOneAndUpdate_no_match p f ss (fun t ht => h t (List.mem_cons_of_mem _ ht))
    simp [findOneAndUpdate, hs, ih]

/-- C1: in a store with unique session ids, for two distinct users `a` and `b` and a
session `s` of `a`: `GET /my-sessions/:id` as `b` with the id of `s` answers 404
'Session not found', which is also what it answers for an id that no record has, and
`GET /my-sessions` as `b` answers a list that does not contain `s` and contains only
sessions of the store owned by `b`. -/
theorem owner_isolation (B : Bcrypt) (env : Env) (σ : Store) (hwf : σ.WF) (a b : ObjectId)
    (hab : a ≠ b) (s : Session) (hs : s ∈ σ.sessions) (ho : s.user_id = a) :
    getMine σ b (IdArg.oid s.id) = ⟨404, Body.error "Session not found"⟩
    ∧ (∀ j : ObjectId, (∀ t ∈ σ.sessions, t.id ≠ j) →
        getMine σ b (IdArg.oid j) = getMine σ b (IdArg.oid s.id))
    ∧ handle B env σ (Request.getMine (some (jwtSign b)) (IdArg.oid s.id))
        = (σ, ⟨404, Body.error "Session not found"⟩)
    ∧ listMine σ b = ⟨200, Body.sessions (mySessions σ b)⟩
    ∧ handle B env σ (Request.listMine (some (jwtSign b))) = (σ, listMine σ b)
    ∧ s ∉ mySessions σ b
    ∧ ∀ t ∈ mySessions σ b, t.user_id = b ∧ t ∈ σ.sessions := by
  have h1 : getMine σ b (IdArg.oid s.id) = notFound := by
    apply getMine_eq_notFound
    intro t ht hid
    rw [eq_of_mem_of_id_eq hwf hs ht hid, ho]
    exact hab
  refine ⟨h1, ?_, ?_, rfl, rfl, ?_, ?_⟩
  · intro j hj
    rw [h1]
    exact getMine_eq_notFound (fun t ht hid => absurd hid (hj t ht))
  · simp only [handle, authenticateToken, jwtSign, jwtVerify, h1]
    rfl
  · intro hmem
    exact hab ((mem_mySessions.1 hmem).2.symm ▸ ho).symm
  · intro t ht
    exact ⟨(mem_mySessions.1 ht).2, (mem_mySessions.1 ht).1⟩

theorem saveDraft_foreign_id (env : Env) (σ : Store) (u : ObjectId) (body : SessionInput)
    (title : String) (ht : body.title = some title) (hne : title ≠ "") (id : IdArg)
    (hid : body.id = some id)
    (hno : ∀ i, id = IdArg.oid i → ∀ t ∈ σ.sessions, t.id = i → t.user_id ≠ u) :
    (saveDraft env σ u body).1 = σ := by
  cases id with
  | malformed => simp [saveDraft, ht, hne, hid]
  | oid i =>
    have hp : ∀ t ∈ σ.sessions, (fun s : Session => s.id == i && s.user_id == u) t = false := by
      intro t htm
      have := hno i rfl t htm
      by_cases hti : t.id = i <;> simp [hti, this]
    simp [saveDraft, ht, hne, hid, findOneAndUpdate_no_match _ _ _ hp]

theorem publish_foreign_id (env : Env) (σ : Store) (u : ObjectId) (body : SessionInput)
    (title : String) (ht : body.title = some title) (hne : title ≠ "") (id : IdArg)
    (hid : body.id = some id)
    (hno : ∀ i, id = IdArg.oid i → ∀ t ∈ σ.sessions, t.id = i → t.user_id ≠ u) :
    (publish env σ u body).1 = σ := by
  cases id with
  | malformed => simp [publish, ht, hne, hid]
  | oid i =>
    have hp : ∀ t ∈ σ.sessions, (fun s : Session => s.id == i && s.user_id == u) t = false := by
      intro t htm
      have := hno i rfl t htm
      by_cases hti : t.id = i <;> simp [hti, this]
    simp [publish, ht, hne, hid, findOneAndUpdate_no_match _ _ _ hp]

/-- C2: a write that names an id which is not the id of a session of the caller (a session
of another user, an id of no record, or an id the driver cannot cast) leaves the whole
store as it was, for `saveDraft` and for `publish`, also through the token middleware:
no record is created and no field of any record changes. -/
theorem writes_scoped_to_owner (B : Bcrypt) (env : Env) (σ : Store) (u : ObjectId)
    (body : SessionInput) (title : String) (ht : body.title = some title) (hne : title ≠ "")
    (id : IdArg) (hid : body.id = some id)
    (hno : ∀ i, id = IdArg.oid i → ∀ t ∈ σ.sessions, t.id = i → t.user_id ≠ u) :
    (saveDraft env σ u body).1 = σ
    ∧ (publish env σ u body).1 = σ
    ∧ (handle B env σ (Request.saveDraft (some (jwtSign u)) body)).1 = σ
    ∧ (handle B env σ (Request.publish (some (jwtSign u)) body)).1 = σ := by
  have h1 := saveDraft_foreign_id env σ u body title ht hne id hid hno
  have h2 := publish_foreign_id env σ u body title ht hne id hid hno
  exact ⟨h1, h2, by simpa [handle, authenticateToken, jwtSign, jwtVerify] using h1,
    by simpa [handle, authenticateToken, jwtSign, jwtVerify] using h2⟩

/-- C3: `GET /sessions` answers 200 with a list whose sessions are, with multiplicity,
exactly the sessions of the store with status published (so no draft is included and
every published session is), in non-increasing order of `created_at`, each joined with
the email of its owner; the store is not changed and no token is needed. -/
theorem listPublished_spec (B : Bcrypt) (env : Env) (σ : Store) :
    ∃ l : List PublicSession,
      listPublished σ = ⟨200, Body.published l⟩
      ∧ handle B env σ Request.listPublished = (σ, listPublished σ)
      ∧ (l.map PublicSession.session).Perm
          (σ.sessions.filter (fun s => s.status == Status.published))
      ∧ (∀ s, s ∈ l.map PublicSession.session ↔ s ∈ σ.sessions ∧ s.status = Status.published)
      ∧ (l.map PublicSession.session).Pairwise (fun x y => y.created_at ≤ x.created_at)
      ∧ ∀ p ∈ l, p = populate σ p.session := by
  refine ⟨_, rfl, rfl, ?_, ?_, ?_, ?_⟩
  · rw [List.map_map]
    have : (PublicSession.session ∘ populate σ) = id := by
      funext s
      rfl
    rw [this, List.map_id]
    exact List.perm_insertionSort _ _
  · intro s
    rw [List.map_map]
    have : (PublicSession.session ∘ populate σ) = id := by
      funext s
      rfl
    rw [this, List.map_id, (List.perm_insertionSort createdDesc _).mem_iff]
    simp [List.mem_filter]
  · rw [List.map_map]
    have : (PublicSession.session ∘ populate σ) = id := by
      funext s
      rfl
    rw [this, List.map_id]
    exact List.sorted_insertionSort createdDesc _
  · intro p hp
    obtain ⟨s, -, rfl⟩ := List.mem_map.1 hp
    rfl

/-! ## Title validation -/

theorem saveDraft_title_missing (env : Env) (σ : Store) (u : ObjectId) (body : SessionInput)
    (h : body.title = none ∨ body.title = some "") :
    saveDraft env σ u body = (σ, badRequest "Title required") := by
  rcases h with h | h <;> simp [saveDraft, h]

theorem publish_title_missing (env : Env) (σ : Store) (u : ObjectId) (body : SessionInput)
    (h : body.title = none ∨ body.title = some "") :
    publish env σ u body = (σ, badRequest "Title required") := by
  rcases h with h | h <;> simp [publish, h]

theorem saveDraft_status_of_title (env : Env) (σ : Store) (u : ObjectId) (body : SessionInput)
    (title : String) (ht : body.title = some title) (hne : title ≠ "") :
    (saveDraft env σ u body).2.status = 200 ∨ (saveDraft env σ u body).2.status = 500 := by
  unfold saveDraft
  simp only [ht, hne, if_false]
  split
  · right; rfl
  · left; rfl
  · split
    · right; rfl
    · left; rfl

theorem publish_status_of_title (env : Env) (σ : Store) (u : ObjectId) (body : SessionInput)
    (title : String) (ht : body.title = some title) (hne : title ≠ "") :
    (publish env σ u body).2.status = 200 ∨ (publish env σ u body).2.status = 500 := by
  unfold publish
  simp only [ht, hne, if_false]
  split
  · right; rfl
  · left; rfl
  · split
    · right; rfl
    · left; rfl

/-- C4, as the claim states it, fails: a title of one space is white space only, yet
`saveDraft` and `publish` on the empty store both answer 200 and insert the record. -/
theorem blank_title_is_saved :
    (" ".data.all isWhiteSpace = true ∧ trim " " = "")
    ∧ saveDraft ⟨5, 1, 0, 5⟩ Store.empty 7 ⟨none, some " ", some "x,y", UrlField.absent⟩
        = (⟨[], [⟨1, 7, " ", ["x", "y"], none, Status.draft, 5, 5⟩]⟩,
           ⟨200, Body.session (some ⟨1, 7, " ", ["x", "y"], none, Status.draft, 5, 5⟩)⟩)
    ∧ publish ⟨5, 1, 0, 5⟩ Store.empty 7 ⟨none, some " ", some "x,y", UrlField.absent⟩
        = (⟨[], [⟨1, 7, " ", ["x", "y"], none, Status.published, 5, 5⟩]⟩,
           ⟨200, Body.session (some ⟨1, 7, " ", ["x", "y"], none, Status.published, 5, 5⟩)⟩) := by
  decide

/-- C4, amended: for every caller and every body, whatever its id, tags and URL, whose
title is absent or the empty string, `saveDraft` answers 400 'Title required' and leaves
the store unchanged, and `publish` does the same, also through the token middleware;
and the check is exactly that one: for any other title, white space only included,
neither handler answers 400. -/
theorem title_required (B : Bcrypt) (env : Env) (σ : Store) (u : ObjectId)
    (body : SessionInput) :
    ((body.title = none ∨ body.title = some "") →
      saveDraft env σ u body = (σ, ⟨400, Body.error "Title required"⟩)
      ∧ publish env σ u body = (σ, ⟨400, Body.error "Title required"⟩)
      ∧ handle B env σ (Request.saveDraft (some (jwtSign u)) body)
          = (σ, ⟨400, Body.error "Title required"⟩)
      ∧ handle B env σ (Request.publish (some (jwtSign u)) body)
          = (σ, ⟨400, Body.error "Title required"⟩))
    ∧ (¬ (body.title = none ∨ body.title = some "") →
      (saveDraft env σ u body).2.status ≠ 400 ∧ (publish env σ u body).2.status ≠ 400) := by
  constructor
  · intro h
    have h1 := saveDraft_title_missing env σ u body h
    have h2 := publish_title_missing env σ u body h
    refine ⟨h1, h2, ?_, ?_⟩
    · simpa [handle, authenticateToken, jwtSign, jwtVerify] using h1
    · simpa [handle, authenticateToken, jwtSign, jwtVerify] using h2
  · intro h
    cases ht : body.title with
    | none => exact absurd (Or.inl ht) h
    | some title =>
      have hne : title ≠ "" := fun he => h (Or.inr (he ▸ ht))
      constructor
      · rcases saveDraft_status_of_title env σ u body title ht hne with h' | h' <;>
          rw [h'] <;> decide
      · rcases publish_status_of_title env σ u body title ht hne with h' | h' <;>
          rw [h'] <;> decide

/-! ## Tag parsing -/

theorem splitChars_ne_nil (sep : Char) : ∀ cs : List Char, splitChars sep cs ≠ []
  | [] => by simp [splitChars]
  | c :: cs => by
    unfold splitChars
    split
    · simp
    · split <;> simp

theorem splitChars_cons_ne (sep c : Char) (cs : List Char) (h : c ≠ sep) :
    ∃ p ps, splitChars sep cs = p :: ps ∧ splitChars sep (c :: cs) = (c :: p) :: ps := by
  cases hsp : splitChars sep cs with
  | nil => exact absurd hsp (splitChars_ne_nil sep cs)
  | cons p ps => exact ⟨p, ps, rfl, by simp [splitChars, h, hsp]⟩

theorem intercalate_cons_cons (sep : Char) (p q : List Char) (ps : List (List Char)) :
    List.intercalate [sep] (p :: q :: ps) = p ++ sep :: List.intercalate [sep] (q :: ps) := by
  simp [List.intercalate, List.intersperse]

theorem intercalate_cons_head (sep c : Char) (p : List Char) (ps : List (List Char)) :
    List.intercalate [sep] ((c :: p) :: ps) = c :: List.intercalate [sep] (p :: ps) := by
  cases ps with
  | nil => simp [List.intercalate, List.intersperse]
  | cons q ps => simp [intercalate_cons_cons]

/-- Joining the pieces with the separator gives the sequence back. -/
theorem intercalate_splitChars (sep : Char) :
    ∀ cs : List Char, List.intercalate [sep] (splitChars sep cs) = cs
  | [] => by simp [splitChars, List.intercalate, List.intersperse]
  | c :: cs => by
    have ih := intercalate_splitChars sep cs
    by_cases h : c = sep
    · obtain ⟨q, qs, hq⟩ := List.exists_cons_of_ne_nil (splitChars_ne_nil sep cs)
      have : splitChars sep (c :: cs) = [] :: q :: qs := by simp [splitChars, h, hq]
      rw [this, intercalate_cons_cons, ← hq, ih, h]
      rfl
    · obtain ⟨p, ps, hp, hc⟩ := splitChars_cons_ne sep c cs h
      rw [hc, intercalate_cons_head, ← hp, ih]

/-- No piece contains the separator. -/
theorem not_mem_of_mem_splitChars (sep : Char) :
    ∀ cs : List Char, ∀ p ∈ splitChars sep cs, sep ∉ p
  | [] => by simp [splitChars]
  | c :: cs => by
    have ih := not_mem_of_mem_splitChars sep cs
    by_cases h : c = sep
    · intro p hp
      simp only [splitChars, h, if_true, List.mem_cons] at hp
      rcases hp with rfl | hp
      · simp
      · exact ih p hp
    · obtain ⟨q, qs, hq, hc⟩ := splitChars_cons_ne sep c cs h
      intro p hp
      rw [hc, List.mem_cons] at hp
      rw [hq] at ih
      rcases hp with rfl | hp
      · intro hm
        rcases List.mem_cons.1 hm with he | hm
        · exact h he.symm
        · exact ih q (List.mem_cons_self _ _) hm
      · exact ih p (List.mem_cons_of_mem _ hp)

/-- There is one piece more than there are separators. -/
theorem length_splitChars (sep : Char) :
    ∀ cs : List Char, (splitChars sep cs).length = cs.count sep + 1
  | [] => by simp [splitChars]
  | c :: cs => by
    have ih := length_splitChars sep cs
    by_cases h : c = sep
    · simp [splitChars, h, ih]
    · obtain ⟨q, qs, hq, hc⟩ := splitChars_cons_ne sep c cs h
      rw [hc, List.count_cons_of_ne (Ne.symm h), ← ih, hq]
      rfl

theorem splitChars_of_not_mem (sep : Char) :
    ∀ p : List Char, sep ∉ p → splitChars sep p = [p]
  | [], _ => rfl
  | c :: p, hsep => by
    have hc : c ≠ sep := fun he => hsep (he ▸ List.mem_cons_self _ _)
    have hp : sep ∉ p := fun hm => hsep (List.mem_cons_of_mem _ hm)
    simp [splitChars, hc, splitChars_of_not_mem sep p hp]

theorem splitChars_append_sep (sep : Char) (rest : List Char) :
    ∀ p : List Char, sep ∉ p →
      splitChars sep (p ++ sep :: rest) = p :: splitChars sep rest
  | [], _ => by simp [splitChars]
  | c :: p, hsep => by
    have hc : c ≠ sep := fun he => hsep (he ▸ List.mem_cons_self _ _)
    have hp : sep ∉ p := fun hm => hsep (List.mem_cons_of_mem _ hm)
    simp [splitChars, hc, splitChars_append_sep sep rest p hp]

/-- The pieces are determined by the two properties above: any non-empty list of
separator-free pieces is what `splitChars` returns on their join. -/
theorem splitChars_intercalate (sep : Char) :
    ∀ ps : List (List Char), ps ≠ [] → (∀ p ∈ ps, sep ∉ p) →
      splitChars sep (List.intercalate [sep] ps) = ps
  | [], h, _ => absurd rfl h
  | [p], _, hp => by
    have hj : List.intercalate [sep] [p] = p := by simp [List.intercalate, List.intersperse]
    rw [hj]
    exact splitChars_of_not_mem sep p (hp p (List.mem_singleton_self p))
  | p :: q :: ps, _, hp => by
    have ih := splitChars_intercalate sep (q :: ps) (by simp)
      (fun r hr => hp r (List.mem_cons_of_mem _ hr))
    rw [intercalate_cons_cons, splitChars_append_sep sep _ p (hp p (List.mem_cons_self _ _)), ih]

theorem rdropWhile_append_rtakeWhile (p : Char → Bool) (l : List Char) :
    l.rdropWhile p ++ l.rtakeWhile p = l := by
  unfold List.rdropWhile List.rtakeWhile
  rw [← List.reverse_append, List.takeWhile_append_dropWhile, List.reverse_reverse]

/-- What `trim` removes and what it leaves: the sequence is white space, then the trimmed
sequence, then white space, and the trimmed sequence neither starts nor ends with white
space. -/
theorem trimChars_spec (cs : List Char) :
    ∃ pre post : List Char, cs = pre ++ trimChars cs ++ post
      ∧ (∀ c ∈ pre, isWhiteSpace c = true) ∧ (∀ c ∈ post, isWhiteSpace c = true)
      ∧ (∀ c, (trimChars cs).head? = some c → isWhiteSpace c = false)
      ∧ (∀ c, (trimChars cs).getLast? = some c → isWhiteSpace c = false) := by
  have htrim : trimChars cs = (cs.dropWhile isWhiteSpace).rdropWhile isWhiteSpace := rfl
  refine ⟨cs.takeWhile isWhiteSpace, (cs.dropWhile isWhiteSpace).rtakeWhile isWhiteSpace,
    ?_, ?_, ?_, ?_, ?_⟩
  · rw [htrim, List.append_assoc, rdropWhile_append_rtakeWhile,
      List.takeWhile_append_dropWhile]
  · intro c hc
    exact List.mem_takeWhile_imp hc
  · intro c hc
    exact List.mem_rtakeWhile_imp hc
  · intro c hc
    obtain ⟨t, ht⟩ : trimChars cs <+: cs.dropWhile isWhiteSpace := by
      rw [htrim]
      exact List.rdropWhile_prefix _ _
    have hd : (cs.dropWhile isWhiteSpace).head? = some c := by
      rw [← ht, List.head?_append_of_ne_nil _ (by intro h; simp [h] at hc), hc]
    have := List.head?_dropWhile_not isWhiteSpace cs
    rw [hd] at this
    simpa using this
  · intro c hc
    have hne : (cs.dropWhile isWhiteSpace).rdropWhile isWhiteSpace ≠ [] := by
      intro h
      rw [htrim, h] at hc
      simp at hc
    have := List.rdropWhile_last_not isWhiteSpace _ hne
    rw [htrim, List.getLast?_eq_getLast _ hne] at hc
    simp only [Option.some.injEq] at hc
    rw [hc] at this
    simpa using this

theorem map_data_split (s : String) (sep : Char) :
    (split s sep).map String.data = splitChars sep s.data := by
  unfold split
  rw [List.map_map]
  exact List.map_id _

theorem mem_trim_data {p : String} {c : Char} (h : c ∈ (trim p).data) : c ∈ p.data := by
  obtain ⟨pre, post, hp, -⟩ := trimChars_spec p.data
  rw [hp]
  exact List.mem_append_left _ (List.mem_append_right _ h)

theorem findOneAndUpdate_some (p : Session → Bool) (f : Session → Session) (r : Session) :
    ∀ l : List Session, (findOneAndUpdate p f l).1 = some r →
      ∃ s ∈ l, p s = true ∧ r = f s ∧ r ∈ (findOneAndUpdate p f l).2
  | [], h => by simp [findOneAndUpdate] at h
  | s :: ss, h => by
    by_cases hp : p s = true
    · simp only [findOneAndUpdate, hp, if_true, Option.some.injEq] at h
      exact ⟨s, List.mem_cons_self _ _, hp, h.symm, by simp [findOneAndUpdate, hp, h]⟩
    · simp only [findOneAndUpdate, hp, if_false] at h
      obtain ⟨t, ht, hpt, hr, hm⟩ := findOneAndUpdate_some p f r ss h
      refine ⟨t, List.mem_cons_of_mem _ ht, hpt, hr, ?_⟩
      simp only [findOneAndUpdate, hp, if_false]
      exact List.mem_cons_of_mem _ hm

theorem mem_saveSession {σ σ' : Store} {s : Session} (h : saveSession σ s = some σ') :
    σ'.sessions = σ.sessions ++ [s] ∧ σ'.users = σ.users ∧ ∀ t ∈ σ.sessions, t.id ≠ s.id := by
  unfold saveSession at h
  split at h
  · exact absurd h (by simp)
  · rename_i hany
    simp only [Option.some.injEq] at h
    subst h
    refine ⟨rfl, rfl, ?_⟩
    intro t ht hid
    exact hany (List.any_eq_true.2 ⟨t, ht, by simp [hid]⟩)

/-- A session returned with status 200 by `saveDraft` carries the parsed tags and is in
the store. -/
theorem saveDraft_ok_tags (env : Env) (σ σ' : Store) (u : ObjectId) (body : SessionInput)
    (r : Session) (h : saveDraft env σ u body = (σ', ⟨200, Body.session (some r)⟩)) :
    r.tags = tagsArray body.tags ∧ r ∈ σ'.sessions := by
  unfold saveDraft at h
  split at h
  · simp [badRequest] at h
  · split at h
    · simp [badRequest] at h
    · split at h
      · simp [serverError] at h
      · simp only [Prod.mk.injEq, Response.mk.injEq, Body.session.injEq, true_and] at h
        obtain ⟨s, -, -, hr, hm⟩ := findOneAndUpdate_some _ _ r _ h.2
        rw [← h.1]
        exact ⟨by rw [hr], hm⟩
      · dsimp only at h
        split at h
        · simp [serverError] at h
        · rename_i hsave
          simp only [Prod.mk.injEq, Response.mk.injEq, Body.session.injEq, true_and,
            Option.some.injEq] at h
          rw [← h.2, ← h.1, (mem_saveSession hsave).1]
          exact ⟨rfl, by simp⟩

/-- A session returned with status 200 by `publish` carries the parsed tags and is in
the store. -/
theorem publish_ok_tags (env : Env) (σ σ' : Store) (u : ObjectId) (body : SessionInput)
    (r : Session) (h : publish env σ u body = (σ', ⟨200, Body.session (some r)⟩)) :
    r.tags = tagsArray body.tags ∧ r ∈ σ'.sessions := by
  unfold publish at h
  split at h
  · simp [badRequest] at h
  · split at h
    · simp [badRequest] at h
    · split at h
      · simp [serverError] at h
      · simp only [Prod.mk.injEq, Response.mk.injEq, Body.session.injEq, true_and] at h
        obtain ⟨s, -, -, hr, hm⟩ := findOneAndUpdate_some _ _ r _ h.2
        rw [← h.1]
        exact ⟨by rw [hr], hm⟩
      · dsimp only at h
        split at h
        · simp [serverError] at h
        · rename_i hsave
          simp only [Prod.mk.injEq, Response.mk.injEq, Body.session.injEq, true_and,
            Option.some.injEq] at h
          rw [← h.2, ← h.1, (mem_saveSession hsave).1]
          exact ⟨rfl, by simp⟩

/-- C5: for a non-empty tag string `s`, the tag list is the list of the pieces of `s`
between its commas, in order, each trimmed: the pieces joined with commas give `s` back
and none contains a comma (and they are the only such list), each tag is its piece
without the white space at its two ends, there are (number of commas) + 1 tags, no tag
contains a comma, and nothing is deduplicated. An absent or empty tag string gives the
empty list, "a, b ,c" gives a, b, c, and a session that `saveDraft` or `publish`
returns carries this list and is the stored one. -/
theorem tagsArray_spec (s : String) (hs : s ≠ "") :
    tagsArray (some s) = (split s ',').map trim
    ∧ List.intercalate [','] ((split s ',').map String.data) = s.data
    ∧ (∀ p ∈ split s ',', ',' ∉ p.data)
    ∧ (∀ pieces : List String, pieces ≠ [] → (∀ p ∈ pieces, ',' ∉ p.data) →
        List.intercalate [','] (pieces.map String.data) = s.data → split s ',' = pieces)
    ∧ (∀ p : String, ∃ pre post : List Char, p.data = pre ++ (trim p).data ++ post
        ∧ (∀ c ∈ pre, isWhiteSpace c = true) ∧ (∀ c ∈ post, isWhiteSpace c = true)
        ∧ (∀ c, (trim p).data.head? = some c → isWhiteSpace c = false)
        ∧ (∀ c, (trim p).data.getLast? = some c → isWhiteSpace c = false))
    ∧ (tagsArray (some s)).length = s.data.count ',' + 1
    ∧ (∀ t ∈ tagsArray (some s), ',' ∉ t.data)
    ∧ tagsArray (some "a,a") = ["a", "a"]
    ∧ tagsArray none = [] ∧ tagsArray (some "") = []
    ∧ tagsArray (some "a, b ,c") = ["a", "b", "c"]
    ∧ (∀ (env : Env) (σ σ' : Store) (u : ObjectId) (body : SessionInput) (r : Session),
        body.tags = some s →
        (saveDraft env σ u body = (σ', ⟨200, Body.session (some r)⟩)
          ∨ publish env σ u body = (σ', ⟨200, Body.session (some r)⟩)) →
        r.tags = tagsArray (some s) ∧ r ∈ σ'.sessions) := by
  have h1 : tagsArray (some s) = (split s ',').map trim := by simp [tagsArray, hs]
  have hmem : ∀ p ∈ split s ',', ',' ∉ p.data := by
    intro p hp
    apply not_mem_of_mem_splitChars ',' s.data
    rw [← map_data_split]
    exact List.mem_map_of_mem _ hp
  refine ⟨h1, ?_, hmem, ?_, fun p => trimChars_spec p.data, ?_, ?_, by decide, rfl,
    by decide, by decide, ?_⟩
  · rw [map_data_split, intercalate_splitChars]
  · intro pieces hne hp hj
    have hsp := splitChars_intercalate ',' (pieces.map String.data) (by simpa using hne)
      (by
        intro q hq
        obtain ⟨p, hpm, rfl⟩ := List.mem_map.1 hq
        exact hp p hpm)
    rw [hj] at hsp
    unfold split
    rw [hsp, List.map_map]
    exact List.map_id _
  · rw [h1, List.length_map]
    unfold split
    rw [List.length_map, length_splitChars]
  · intro t ht
    rw [h1] at ht
    obtain ⟨p, hp, rfl⟩ := List.mem_map.1 ht
    exact fun hc => hmem p hp (mem_trim_data hc)
  · intro env σ σ' u body r hb h
    rcases h with h | h
    · rw [← hb]
      exact saveDraft_ok_tags env σ σ' u body r h
    · rw [← hb]
      exact publish_ok_tags env σ σ' u body r h

/-- C5 at the tag string of the specification. -/
theorem tagsArray_spec_witness :
    "a, b ,c" ≠ "" ∧ tagsArray (some "a, b ,c") = (split "a, b ,c" ',').map trim
      ∧ (tagsArray (some "a, b ,c")).length = "a, b ,c".data.count ',' + 1 :=
  ⟨by decide, (tagsArray_spec "a, b ,c" (by decide)).1,
    (tagsArray_spec "a, b ,c" (by decide)).2.2.2.2.2.1⟩

/-! ## Create and update -/

theorem findOneAndUpdate_split (p : Session → Bool) (f : Session → Session) (s : Session)
    (l₂ : List Session) (hs : p s = true) :
    ∀ l₁ : List Session, (∀ t ∈ l₁, p t = false) →
      findOneAndUpdate p f (l₁ ++ s :: l₂) = (some (f s), l₁ ++ f s :: l₂)
  | [], _ => by simp [findOneAndUpdate, hs]
  | t :: l₁, h => by
    have ht : p t = false := h t (List.mem_cons_self _ _)
    have ih := findOneAndUpdate_split p f s l₂ hs l₁
      (fun x hx => h x (List.mem_cons_of_mem _ hx))
    simp [findOneAndUpdate, ht, ih]

theorem exists_first_match (p : Session → Bool) :
    ∀ l : List Session, (∃ t ∈ l, p t = true) →
      ∃ l₁ s l₂, l = l₁ ++ s :: l₂ ∧ (∀ t ∈ l₁, p t = false) ∧ p s = true
  | [], h => by
    obtain ⟨t, ht, -⟩ := h
    exact absurd ht (List.not_mem_nil t)
  | x :: l, h => by
    by_cases hx : p x = true
    · exact ⟨[], x, l, rfl, by simp, hx⟩
    · have hl : ∃ t ∈ l, p t = true := by
        obtain ⟨t, ht, hpt⟩ := h
        rcases List.mem_cons.1 ht with rfl | ht
        · exact absurd hpt hx
        · exact ⟨t, ht, hpt⟩
      obtain ⟨l₁, s, l₂, hl, h1, hs⟩ := exists_first_match p l hl
      refine ⟨x :: l₁, s, l₂, by rw [hl]; rfl, ?_, hs⟩
      intro t ht
      rcases List.mem_cons.1 ht with rfl | ht
      · simpa using hx
      · exact h1 t ht

theorem saveSession_fresh (σ : Store) (s : Session) (h : ∀ t ∈ σ.sessions, t.id ≠ s.id) :
    saveSession σ s = some ⟨σ.users, σ.sessions ++ [s]⟩ := by
  have : σ.sessions.any (fun v => v.id == s.id) = false := by
    rw [List.any_eq_false]
    intro t ht
    simpa using h t ht
  simp [saveSession, this]

/-- The create branch of `saveDraft`. -/
theorem saveDraft_create (env : Env) (σ : Store) (u : ObjectId) (title : String)
    (tags : Option String) (url : UrlField) (hne : title ≠ "")
    (hfresh : ∀ t ∈ σ.sessions, t.id ≠ env.objectId) :
    saveDraft env σ u ⟨none, some title, tags, url⟩
      = (⟨σ.users, σ.sessions ++
            [⟨env.objectId, u, title, tagsArray tags, url.stored, Status.draft, env.now,
              env.nowAgain⟩]⟩,
          ⟨200, Body.session (some
            ⟨env.objectId, u, title, tagsArray tags, url.stored, Status.draft, env.now,
              env.nowAgain⟩)⟩) := by
  have := saveSession_fresh σ
    ⟨env.objectId, u, title, tagsArray tags, url.stored, Status.draft, env.now,
              env.nowAgain⟩ hfresh
  simp [saveDraft, hne, this]

/-- The create branch of `publish`. -/
theorem publish_create (env : Env) (σ : Store) (u : ObjectId) (title : String)
    (tags : Option String) (url : UrlField) (hne : title ≠ "")
    (hfresh : ∀ t ∈ σ.sessions, t.id ≠ env.objectId) :
    publish env σ u ⟨none, some title, tags, url⟩
      = (⟨σ.users, σ.sessions ++
            [⟨env.objectId, u, title, tagsArray tags, url.stored, Status.published,
              env.now, env.nowAgain⟩]⟩,
          ⟨200, Body.session (some
            ⟨env.objectId, u, title, tagsArray tags, url.stored, Status.published,
              env.now, env.nowAgain⟩)⟩) := by
  have := saveSession_fresh σ
    ⟨env.objectId, u, title, tagsArray tags, url.stored, Status.published, env.now,
      env.nowAgain⟩ hfresh
  simp [publish, hne, this]

/-- The update branch of `saveDraft` on the first session of the caller with the id. -/
theorem saveDraft_update (env : Env) (users : List User) (l₁ l₂ : List Session) (s : Session)
    (title : String) (tags : Option String) (url : UrlField) (hne : title ≠ "")
    (h₁ : ∀ t ∈ l₁, t.id = s.id → t.user_id ≠ s.user_id) :
    saveDraft env ⟨users, l₁ ++ s :: l₂⟩ s.user_id ⟨some (IdArg.oid s.id), some title, tags, url⟩
      = (⟨users, l₁ ++ { s with
            title := title, tags := tagsArray tags, json_file_url := url.assign s.json_file_url,
            updated_at := env.now } :: l₂⟩,
          ⟨200, Body.session (some { s with
            title := title, tags := tagsArray tags, json_file_url := url.assign s.json_file_url,
            updated_at := env.now })⟩) := by
  have hp : ∀ t ∈ l₁, (fun x : Session => x.id == s.id && x.user_id == s.user_id) t = false := by
    intro t ht
    have := h₁ t ht
    by_cases hti : t.id = s.id <;> simp [hti, this]
  have := findOneAndUpdate_split (fun x : Session => x.id == s.id && x.user_id == s.user_id)
    (fun x => { x with
      title := title, tags := tagsArray tags, json_file_url := url.assign x.json_file_url,
      updated_at := env.now })
    s l₂ (by simp) l₁ hp
  simp [saveDraft, hne, this]

/-- The update branch of `publish` on the first session of the caller with the id. -/
theorem publish_update (env : Env) (users : List User) (l₁ l₂ : List Session) (s : Session)
    (title : String) (tags : Option String) (url : UrlField) (hne : title ≠ "")
    (h₁ : ∀ t ∈ l₁, t.id = s.id → t.user_id ≠ s.user_id) :
    publish env ⟨users, l₁ ++ s :: l₂⟩ s.user_id ⟨some (IdArg.oid s.id), some title, tags, url⟩
      = (⟨users, l₁ ++ { s with
            title := title, tags := tagsArray tags, json_file_url := url.assign s.json_file_url,
            status := Status.published, updated_at := env.now } :: l₂⟩,
          ⟨200, Body.session (some { s with
            title := title, tags := tagsArray tags, json_file_url := url.assign s.json_file_url,
            status := Status.published, updated_at := env.now })⟩) := by
  have hp : ∀ t ∈ l₁, (fun x : Session => x.id == s.id && x.user_id == s.user_id) t = false := by
    intro t ht
    have := h₁ t ht
    by_cases hti : t.id = s.id <;> simp [hti, this]
  have := findOneAndUpdate_split (fun x : Session => x.id == s.id && x.user_id == s.user_id)
    (fun x => { x with
      title := title, tags := tagsArray tags, json_file_url := url.assign x.json_file_url,
      status := Status.published, updated_at := env.now })
    s l₂ (by simp) l₁ hp
  simp [publish, hne, this]

/-- In a store with unique ids, a session splits the collection into the sessions before
it and after it, none of which has its id. -/
theorem split_at_session {σ : Store} (hwf : σ.WF) {s : Session} (hs : s ∈ σ.sessions) :
    ∃ l₁ l₂, σ.sessions = l₁ ++ s :: l₂ ∧ (∀ t ∈ l₁, t.id ≠ s.id) ∧ ∀ t ∈ l₂, t.id ≠ s.id := by
  obtain ⟨l₁, l₂, hl⟩ := List.append_of_mem hs
  refine ⟨l₁, l₂, hl, ?_, ?_⟩
  · intro t ht hid
    have hnd : (σ.sessions.map (fun x => x.id)).Nodup := hwf
    rw [hl, List.map_append, List.map_cons, List.nodup_append] at hnd
    exact hnd.2.2 (List.mem_map_of_mem _ ht) (by simp [hid])
  · intro t ht hid
    have hnd : (σ.sessions.map (fun x => x.id)).Nodup := hwf
    rw [hl, List.map_append, List.map_cons, List.nodup_append, List.nodup_cons] at hnd
    exact hnd.2.1.1 (by rw [← hid]; exact List.mem_map_of_mem _ ht)

/-- C1 on the sample store: user 2 asks for session 10 of user 1. -/
theorem owner_isolation_witness :
    sampleStore.WF
    ∧ getMine sampleStore 2 (IdArg.oid 10) = ⟨404, Body.error "Session not found"⟩ :=
  ⟨by decide,
    (owner_isolation sampleBcrypt sampleEnv sampleStore (by decide) 1 2 (by decide)
      ⟨10, 1, "T1", ["x", "y"], none, Status.draft, 3, 3⟩ (by decide) rfl).1⟩

/-- C2 on the sample store: user 2 writes with the id of session 10 of user 1. -/
theorem writes_scoped_to_owner_witness :
    (saveDraft sampleEnv sampleStore 2 ⟨some (IdArg.oid 10), some "Mine", some "q", UrlField.absent⟩).1
      = sampleStore
    ∧ (publish sampleEnv sampleStore 2 ⟨some (IdArg.oid 10), some "Mine", some "q", UrlField.absent⟩).1
      = sampleStore :=
  ⟨(writes_scoped_to_owner sampleBcrypt sampleEnv sampleStore 2
      ⟨some (IdArg.oid 10), some "Mine", some "q", UrlField.absent⟩ "Mine" rfl (by decide)
      (IdArg.oid 10) rfl (by intro i h; cases h; decide)).1,
    (writes_scoped_to_owner sampleBcrypt sampleEnv sampleStore 2
      ⟨some (IdArg.oid 10), some "Mine", some "q", UrlField.absent⟩ "Mine" rfl (by decide)
      (IdArg.oid 10) rfl (by intro i h; cases h; decide)).2.1⟩

/-- C4 (amended) on the sample store: an empty title with every other field given. -/
theorem title_required_witness :
    saveDraft sampleEnv sampleStore 1 ⟨some (IdArg.oid 10), some "", some "x", UrlField.str "u"⟩
      = (sampleStore, ⟨400, Body.error "Title required"⟩)
    ∧ (publish sampleEnv sampleStore 1 ⟨none, some " ", none, UrlField.absent⟩).2.status ≠ 400 :=
  ⟨((title_required sampleBcrypt sampleEnv sampleStore 1
      ⟨some (IdArg.oid 10), some "", some "x", UrlField.str "u"⟩).1 (Or.inr rfl)).1,
    ((title_required sampleBcrypt sampleEnv sampleStore 1 ⟨none, some " ", none, UrlField.absent⟩).2
      (by decide)).2⟩

/-- C6, as the claim states it, fails on two points. The first `saveDraft` stores the URL
"https://x/a.json"; the second, with the returned id, has no URL key and reads the same
clock value as the first (both calls within one millisecond). The record is updated, but
it still carries the URL of the first call, not that of the second (none), and its
`updated_at` is what it was after the first call, not strictly later. -/
theorem saveDraft_twice_same_clock :
    saveDraft ⟨5, 1, 0, 5⟩ Store.empty 7
        ⟨none, some "T1", some "x,y", UrlField.str "https://x/a.json"⟩
      = (⟨[], [⟨1, 7, "T1", ["x", "y"], some "https://x/a.json", Status.draft, 5, 5⟩]⟩,
         ⟨200, Body.session
           (some ⟨1, 7, "T1", ["x", "y"], some "https://x/a.json", Status.draft, 5, 5⟩)⟩)
    ∧ saveDraft ⟨5, 2, 0, 5⟩
        ⟨[], [⟨1, 7, "T1", ["x", "y"], some "https://x/a.json", Status.draft, 5, 5⟩]⟩ 7
        ⟨some (IdArg.oid 1), some "T2", some "z", UrlField.absent⟩
      = (⟨[], [⟨1, 7, "T2", ["z"], some "https://x/a.json", Status.draft, 5, 5⟩]⟩,
         ⟨200, Body.session
           (some ⟨1, 7, "T2", ["z"], some "https://x/a.json", Status.draft, 5, 5⟩)⟩)
    ∧ (⟨1, 7, "T2", ["z"], some "https://x/a.json", Status.draft, 5, 5⟩ : Session).json_file_url
        ≠ UrlField.stored UrlField.absent
    ∧ ¬ ((⟨1, 7, "T1", ["x", "y"], some "https://x/a.json", Status.draft, 5, 5⟩ : Session).updated_at
          < (⟨1, 7, "T2", ["z"], some "https://x/a.json", Status.draft, 5, 5⟩ : Session).updated_at) := by
  decide

/-- C6, amended: for every store, owner and pair of inputs with non-empty titles, when the
id generated for the new record is unused, `saveDraft` without an id answers 200 with a
new draft `r₁` appended to the collection, and `saveDraft` with the id of `r₁` answers 200
with `r₂` in the place of `r₁`: the number of records is the same, every other record and
every user is unchanged, `r₂` has the id of `r₁`, the title and parsed tags of the second
call, the URL of the second call when its body carries one (a string, or `null` for
none) and the URL of `r₁` when the body has no URL key, and the owner, status (draft) and
`created_at` of `r₁`; its `updated_at` is the clock reading of the second call, which is
strictly later than the `updated_at` of `r₁` exactly when that reading is later than the
one the first call stored. -/
theorem saveDraft_then_saveDraft (env₁ env₂ : Env) (σ : Store) (u : ObjectId)
    (t₁ t₂ : String) (tags₁ tags₂ : Option String) (url₁ url₂ : UrlField)
    (h₁ : t₁ ≠ "") (h₂ : t₂ ≠ "")
    (hfresh : ∀ s ∈ σ.sessions, s.id ≠ env₁.objectId) :
    ∃ r₁ r₂ : Session, ∃ σ₁ σ₂ : Store,
      saveDraft env₁ σ u ⟨none, some t₁, tags₁, url₁⟩ = (σ₁, ⟨200, Body.session (some r₁)⟩)
      ∧ saveDraft env₂ σ₁ u ⟨some (IdArg.oid r₁.id), some t₂, tags₂, url₂⟩
          = (σ₂, ⟨200, Body.session (some r₂)⟩)
      ∧ σ₁.sessions = σ.sessions ++ [r₁] ∧ σ₂.sessions = σ.sessions ++ [r₂]
      ∧ σ₂.sessions.length = σ₁.sessions.length
      ∧ σ₁.users = σ.users ∧ σ₂.users = σ.users
      ∧ r₂.id = r₁.id ∧ r₂.title = t₂ ∧ r₂.tags = tagsArray tags₂
      ∧ r₂.json_file_url
          = (match url₂ with
            | UrlField.absent => r₁.json_file_url
            | UrlField.null => none
            | UrlField.str v => some v)
      ∧ r₁.user_id = u ∧ r₂.user_id = u
      ∧ r₁.status = Status.draft ∧ r₂.status = Status.draft
      ∧ r₂.created_at = r₁.created_at
      ∧ r₁.updated_at = env₁.nowAgain ∧ r₂.updated_at = env₂.now
      ∧ (r₁.updated_at < r₂.updated_at ↔ env₁.nowAgain < env₂.now) := by
  have hc := saveDraft_create env₁ σ u t₁ tags₁ url₁ h₁ hfresh
  have hu := saveDraft_update env₂ σ.users σ.sessions []
    ⟨env₁.objectId, u, t₁, tagsArray tags₁, url₁.stored, Status.draft, env₁.now, env₁.nowAgain⟩
    t₂ tags₂ url₂ h₂ (fun t ht hid => absurd hid (hfresh t ht))
  refine ⟨_, _, _, _, hc, hu, rfl, rfl, by simp, rfl, rfl, rfl, rfl, rfl, ?_, rfl, rfl, rfl,
    rfl, rfl, rfl, rfl, Iff.rfl⟩
  cases url₂ <;> rfl

/-- C6 (amended) on the sample store, the clock advancing from 6 to 7 between the calls,
the second call without a URL key. -/
theorem saveDraft_then_saveDraft_witness :
    ∃ r₁ r₂ : Session, ∃ σ₁ σ₂ : Store,
      saveDraft ⟨5, 12, 0, 6⟩ sampleStore 1 ⟨none, some "A", some "x", UrlField.str "u"⟩
        = (σ₁, ⟨200, Body.session (some r₁)⟩)
      ∧ saveDraft ⟨7, 13, 0, 7⟩ σ₁ 1
          ⟨some (IdArg.oid r₁.id), some "B", some "y,z", UrlField.absent⟩
        = (σ₂, ⟨200, Body.session (some r₂)⟩)
      ∧ σ₂.sessions.length = σ₁.sessions.length
      ∧ r₂.json_file_url = r₁.json_file_url
      ∧ r₁.updated_at < r₂.updated_at := by
  obtain ⟨r₁, r₂, σ₁, σ₂, a, b, -, -, c, -, -, -, -, -, f, -, -, -, -, -, -, -, d⟩ :=
    saveDraft_then_saveDraft ⟨5, 12, 0, 6⟩ ⟨7, 13, 0, 7⟩ sampleStore 1 "A" "B" (some "x")
      (some "y,z") (UrlField.str "u") UrlField.absent (by decide) (by decide) (by decide)
  exact ⟨r₁, r₂, σ₁, σ₂, a, b, c, f, d.2 (by decide)⟩

/-- C7, as the claim states it, fails on the URL of an update: user 2 publishes over
session 11 of the sample store, which has the URL "https://x/s.json", with a body that
has no URL key. The record gets the title and tags of the input and status published,
but keeps the stored URL where the input has none. -/
theorem publish_keeps_stored_url :
    publish sampleEnv sampleStore 2 ⟨some (IdArg.oid 11), some "N", some "a", UrlField.absent⟩
      = (⟨sampleStore.users,
          [⟨10, 1, "T1", ["x", "y"], none, Status.draft, 3, 3⟩,
           ⟨11, 2, "N", ["a"], some "https://x/s.json", Status.published, 4, 5⟩]⟩,
         ⟨200, Body.session
           (some ⟨11, 2, "N", ["a"], some "https://x/s.json", Status.published, 4, 5⟩)⟩)
    ∧ (⟨11, 2, "N", ["a"], some "https://x/s.json", Status.published, 4, 5⟩ : Session).json_file_url
        ≠ UrlField.stored UrlField.absent := by
  decide

/-- C7, amended: for every store, owner and input with a non-empty title, `publish`
without an id, when the id generated for the new record is unused, answers 200 with a new
record appended to the collection (one record more, the others and the users unchanged),
owned by the caller, with status published from its first appearance in the store and
with the title, parsed tags and URL of the input; and, in a store with unique ids,
`publish` with the id of a session `s` of the caller answers 200 with a record in the
place of `s` (same number of records, the others unchanged) that has status published,
whatever the status of `s` was, the title and parsed tags of the input, the URL of the
input when the body carries one (a string, or `null` for none) and the URL of `s` when
the body has no URL key, and the id, owner and `created_at` of `s`. -/
theorem publish_forces_published (env : Env) (σ : Store) (u : ObjectId) (title : String)
    (tags : Option String) (url : UrlField) (hne : title ≠ "") :
    ((∀ t ∈ σ.sessions, t.id ≠ env.objectId) →
      ∃ (r : Session) (σ' : Store),
        publish env σ u ⟨none, some title, tags, url⟩ = (σ', ⟨200, Body.session (some r)⟩)
        ∧ σ'.sessions = σ.sessions ++ [r] ∧ σ'.sessions.length = σ.sessions.length + 1
        ∧ σ'.users = σ.users
        ∧ r.id = env.objectId ∧ r.user_id = u ∧ r.status = Status.published
        ∧ r.title = title ∧ r.tags = tagsArray tags
        ∧ r.json_file_url
            = (match url with
              | UrlField.absent => none
              | UrlField.null => none
              | UrlField.str v => some v)
        ∧ r.created_at = env.now ∧ r.updated_at = env.nowAgain)
    ∧ (σ.WF → ∀ s ∈ σ.sessions, s.user_id = u →
      ∃ (r : Session) (σ' : Store) (l₁ l₂ : List Session),
        publish env σ u ⟨some (IdArg.oid s.id), some title, tags, url⟩
          = (σ', ⟨200, Body.session (some r)⟩)
        ∧ σ.sessions = l₁ ++ s :: l₂ ∧ σ'.sessions = l₁ ++ r :: l₂
        ∧ σ'.sessions.length = σ.sessions.length ∧ σ'.users = σ.users
        ∧ r.id = s.id ∧ r.user_id = u ∧ r.status = Status.published
        ∧ r.title = title ∧ r.tags = tagsArray tags
        ∧ r.json_file_url
            = (match url with
              | UrlField.absent => s.json_file_url
              | UrlField.null => none
              | UrlField.str v => some v)
        ∧ r.created_at = s.created_at ∧ r.updated_at = env.now) := by
  constructor
  · intro hfresh
    refine ⟨_, _, publish_create env σ u title tags url hne hfresh, rfl, by simp, rfl, rfl, rfl,
      rfl, rfl, rfl, ?_, rfl, rfl⟩
    cases url <;> rfl
  · intro hwf s hs hu
    obtain ⟨l₁, l₂, hl, h1, -⟩ := split_at_session hwf hs
    have hp := publish_update env σ.users l₁ l₂ s title tags url hne
      (fun t ht hid => absurd hid (h1 t ht))
    rw [← hl, hu] at hp
    refine ⟨_, _, l₁, l₂, hp, hl, rfl, by simp [hl], rfl, rfl, rfl, rfl, rfl, rfl, ?_, rfl,
      rfl⟩
    cases url <;> rfl

/-- C7 (amended) on the sample store: user 1 publishes a new session, and publishes
draft 10 with a body that carries a URL. -/
theorem publish_forces_published_witness :
    (∃ (r : Session) (σ' : Store),
      publish sampleEnv sampleStore 1 ⟨none, some "N", some "a,b", UrlField.absent⟩
        = (σ', ⟨200, Body.session (some r)⟩)
      ∧ σ'.sessions.length = sampleStore.sessions.length + 1 ∧ r.status = Status.published
      ∧ r.json_file_url = none)
    ∧ ∃ (r : Session) (σ' : Store),
      publish sampleEnv sampleStore 1
          ⟨some (IdArg.oid 10), some "N", some "a,b", UrlField.str "https://x/t.json"⟩
        = (σ', ⟨200, Body.session (some r)⟩)
      ∧ σ'.sessions.length = sampleStore.sessions.length ∧ r.status = Status.published
      ∧ r.json_file_url = some "https://x/t.json" := by
  constructor
  · obtain ⟨r, σ', a, -, b, -, -, -, c, -, -, d, -⟩ :=
      (publish_forces_published sampleEnv sampleStore 1 "N" (some "a,b") UrlField.absent
        (by decide)).1 (by decide)
    exact ⟨r, σ', a, b, c, d⟩
  · obtain ⟨r, σ', l₁, l₂, a, -, -, b, -, -, -, c, -, -, d, -⟩ :=
      (publish_forces_published sampleEnv sampleStore 1 "N" (some "a,b")
        (UrlField.str "https://x/t.json") (by decide)).2 (by decide)
        ⟨10, 1, "T1", ["x", "y"], none, Status.draft, 3, 3⟩ (by decide) rfl
    exact ⟨r, σ', a, b, c, d⟩

/-! ## Invariants of the session collection -/

theorem findOneAndUpdate_map_id (p : Session → Bool) (f : Session → Session)
    (hf : ∀ s, (f s).id = s.id) :
    ∀ l : List Session,
      (findOneAndUpdate p f l).2.map (fun s => s.id) = l.map (fun s => s.id)
  | [] => rfl
  | s :: ss => by
    have ih := findOneAndUpdate_map_id p f hf ss
    by_cases hp : p s = true
    · simp [findOneAndUpdate, hp, hf]
    · simp [findOneAndUpdate, hp, ih]

theorem findOneAndUpdate_mem (p : Session → Bool) (f : Session → Session) :
    ∀ l : List Session, ∀ s ∈ l,
      s ∈ (findOneAndUpdate p f l).2 ∨ f s ∈ (findOneAndUpdate p f l).2
  | [], s, hs => absurd hs (List.not_mem_nil s)
  | x :: l, s, hs => by
    by_cases hp : p x = true
    · rcases List.mem_cons.1 hs with rfl | hs
      · right
        simp [findOneAndUpdate, hp]
      · left
        simp [findOneAndUpdate, hp, hs]
    · rcases List.mem_cons.1 hs with rfl | hs
      · left
        simp [findOneAndUpdate, hp]
      · rcases findOneAndUpdate_mem p f l s hs with h | h
        · left
          simp [findOneAndUpdate, hp, h]
        · right
          simp [findOneAndUpdate, hp, h]

theorem Keeps.refl (σ : Store) : Keeps σ σ :=
  ⟨id, fun s hs => ⟨s, hs, rfl, id⟩⟩

theorem Keeps.trans {σ₁ σ₂ σ₃ : Store} (h₁ : Keeps σ₁ σ₂) (h₂ : Keeps σ₂ σ₃) : Keeps σ₁ σ₃ := by
  refine ⟨fun h => h₂.1 (h₁.1 h), ?_⟩
  intro s hs
  obtain ⟨s', hs', hid', hst'⟩ := h₁.2 s hs
  obtain ⟨s'', hs'', hid'', hst''⟩ := h₂.2 s' hs'
  exact ⟨s'', hs'', hid''.trans hid', fun h => hst'' (hst' h)⟩

theorem Keeps.of_sessions_eq {σ σ' : Store} (h : σ'.sessions = σ.sessions) : Keeps σ σ' := by
  refine ⟨fun hwf => ?_, fun s hs => ⟨s, h ▸ hs, rfl, id⟩⟩
  unfold Store.WF at hwf ⊢
  rw [h]
  exact hwf

theorem Keeps.of_saveSession {σ σ' : Store} {s : Session} (h : saveSession σ s = some σ') :
    Keeps σ σ' := by
  obtain ⟨hs, -, hfresh⟩ := mem_saveSession h
  refine ⟨fun hwf => ?_, fun t ht => ⟨t, by rw [hs]; exact List.mem_append_left _ ht, rfl, id⟩⟩
  unfold Store.WF at hwf ⊢
  rw [hs, List.map_append, List.nodup_append]
  refine ⟨hwf, by simp, ?_⟩
  intro a ha hb
  obtain ⟨t, ht, rfl⟩ := List.mem_map.1 ha
  simp only [List.map_cons, List.map_nil, List.mem_singleton] at hb
  exact hfresh t ht hb

theorem Keeps.of_update (σ : Store) (p : Session → Bool) (f : Session → Session)
    (hid : ∀ s, (f s).id = s.id)
    (hst : ∀ s, s.status = Status.published → (f s).status = Status.published) :
    Keeps σ { σ with sessions := (findOneAndUpdate p f σ.sessions).2 } := by
  refine ⟨fun hwf => ?_, fun s hs => ?_⟩
  · unfold Store.WF at hwf ⊢
    rw [findOneAndUpdate_map_id p f hid]
    exact hwf
  · rcases findOneAndUpdate_mem p f σ.sessions s hs with h | h
    · exact ⟨s, h, rfl, id⟩
    · exact ⟨f s, h, hid s, hst s⟩

theorem saveDraft_keeps (env : Env) (σ : Store) (u : ObjectId) (body : SessionInput) :
    Keeps σ (saveDraft env σ u body).1 := by
  unfold saveDraft
  split
  · exact Keeps.refl σ
  · split
    · exact Keeps.refl σ
    · split
      · exact Keeps.refl σ
      · exact Keeps.of_update σ _ _ (fun _ => rfl) (fun _ h => h)
      · dsimp only
        split
        · exact Keeps.refl σ
        · rename_i hsave
          exact Keeps.of_saveSession hsave

theorem publish_keeps (env : Env) (σ : Store) (u : ObjectId) (body : SessionInput) :
    Keeps σ (publish env σ u body).1 := by
  unfold publish
  split
  · exact Keeps.refl σ
  · split
    · exact Keeps.refl σ
    · split
      · exact Keeps.refl σ
      · exact Keeps.of_update σ _ _ (fun _ => rfl) (fun _ _ => rfl)
      · dsimp only
        split
        · exact Keeps.refl σ
        · rename_i hsave
          exact Keeps.of_saveSession hsave

theorem register_sessions (B : Bcrypt) (env : Env) (σ : Store) (e p : Option String) :
    (register B env σ e p).1.sessions = σ.sessions := by
  unfold register
  split
  · split
    · rfl
    · split
      · rfl
      · dsimp only
        split
        · rfl
        · rename_i hsave
          unfold saveUser at hsave
          split at hsave
          · exact absurd hsave (by simp)
          · simp only [Option.some.injEq] at hsave
            rw [← hsave]
  · rfl

theorem login_store (B : Bcrypt) (σ : Store) (e p : Option String) :
    (login B σ e p).1 = σ := by
  unfold login
  split
  · split
    · rfl
    · split
      · rfl
      · split <;> rfl
  · rfl

theorem authenticateToken_keeps (auth : Option Token) (σ : Store)
    (next : ObjectId → Store × Response) (h : ∀ u, Keeps σ (next u).1) :
    Keeps σ (authenticateToken auth σ next).1 := by
  unfold authenticateToken
  split
  · exact Keeps.refl σ
  · split
    · exact Keeps.refl σ
    · exact h _

theorem handle_keeps (B : Bcrypt) (env : Env) (σ : Store) (r : Request) :
    Keeps σ (handle B env σ r).1 := by
  cases r with
  | register e p => exact Keeps.of_sessions_eq (register_sessions B env σ e p)
  | login e p => exact Keeps.of_sessions_eq (by rw [handle, login_store])
  | listPublished => exact Keeps.refl σ
  | listMine auth => exact authenticateToken_keeps auth σ _ (fun _ => Keeps.refl σ)
  | getMine auth id => exact authenticateToken_keeps auth σ _ (fun _ => Keeps.refl σ)
  | saveDraft auth body =>
    exact authenticateToken_keeps auth σ _ (fun u => saveDraft_keeps env σ u body)
  | publish auth body =>
    exact authenticateToken_keeps auth σ _ (fun u => publish_keeps env σ u body)

theorem run_keeps (B : Bcrypt) : ∀ (t : List (Env × Request)) (σ : Store), Keeps σ (run B σ t)
  | [], σ => Keeps.refl σ
  | (env, r) :: t, σ => (handle_keeps B env σ r).trans (run_keeps B t _)

theorem run_wf (B : Bcrypt) (t : List (Env × Request)) : (run B Store.empty t).WF :=
  (run_keeps B t Store.empty).1 (by decide)

/-- C8: in every store reached from the empty store by any sequence of requests (register,
login, the listings, saveDraft and publish, with any tokens), every session has status
draft or published and session ids are unique; a session that is published there is
still in every store reached from it by any further requests, under the same id, and is
published there; and `saveDraft` by the owner with the id of a published session answers
200 with a record in the place of the session that carries the title and parsed tags of
the input, the URL of the input when the body carries one (a string, or `null` for none)
and the stored URL when the body has no URL key, and that has status published. -/
theorem published_is_stable (B : Bcrypt) (t₁ t₂ : List (Env × Request)) :
    (∀ s ∈ (run B Store.empty t₁).sessions,
      s.status = Status.draft ∨ s.status = Status.published)
    ∧ (run B Store.empty t₁).WF
    ∧ (∀ s ∈ (run B Store.empty t₁).sessions, s.status = Status.published →
        (∃ s' ∈ (run B (run B Store.empty t₁) t₂).sessions, s'.id = s.id)
        ∧ ∀ s' ∈ (run B (run B Store.empty t₁) t₂).sessions,
            s'.id = s.id → s'.status = Status.published)
    ∧ (∀ (env : Env) (title : String) (tags : Option String) (url : UrlField),
        ∀ s ∈ (run B Store.empty t₁).sessions, s.status = Status.published → title ≠ "" →
        ∃ (r : Session) (σ' : Store) (l₁ l₂ : List Session),
          saveDraft env (run B Store.empty t₁) s.user_id
              ⟨some (IdArg.oid s.id), some title, tags, url⟩
            = (σ', ⟨200, Body.session (some r)⟩)
          ∧ (run B Store.empty t₁).sessions = l₁ ++ s :: l₂ ∧ σ'.sessions = l₁ ++ r :: l₂
          ∧ r.id = s.id ∧ r.title = title ∧ r.tags = tagsArray tags
          ∧ r.json_file_url
              = (match url with
                | UrlField.absent => s.json_file_url
                | UrlField.null => none
                | UrlField.str v => some v)
          ∧ r.status = Status.published) := by
  have hwf : (run B Store.empty t₁).WF := run_wf B t₁
  have hk := run_keeps B t₂ (run B Store.empty t₁)
  refine ⟨?_, hwf, ?_, ?_⟩
  · intro s _
    cases s.status
    · exact Or.inl rfl
    · exact Or.inr rfl
  · intro s hs hpub
    obtain ⟨s', hs', hid, hst⟩ := hk.2 s hs
    refine ⟨⟨s', hs', hid⟩, ?_⟩
    intro s'' hs'' hid''
    rw [eq_of_mem_of_id_eq (hk.1 hwf) hs' hs'' (hid''.trans hid.symm)]
    exact hst hpub
  · intro env title tags url s hs hpub hne
    obtain ⟨l₁, l₂, hl, h1, -⟩ := split_at_session hwf hs
    have hu := saveDraft_update env (run B Store.empty t₁).users l₁ l₂ s title tags url hne
      (fun t ht hid => absurd hid (h1 t ht))
    rw [← hl] at hu
    refine ⟨_, _, l₁, l₂, hu, hl, rfl, rfl, rfl, rfl, ?_, hpub⟩
    cases url <;> rfl

/-- C8 on a trace: user 1 publishes a session, then saves a draft over it, and user 2
publishes with its id; the session is published after the first request and after all. -/
theorem published_is_stable_witness :
    (⟨1, 1, "T", ["x"], none, Status.published, 5, 5⟩ : Session)
        ∈ (run sampleBcrypt Store.empty
            [(⟨5, 1, 0, 5⟩, Request.publish (some (Token.signed 1))
                ⟨none, some "T", some "x", UrlField.absent⟩)]).sessions
    ∧ ∀ s' ∈ (run sampleBcrypt
          (run sampleBcrypt Store.empty
            [(⟨5, 1, 0, 5⟩, Request.publish (some (Token.signed 1))
                ⟨none, some "T", some "x", UrlField.absent⟩)])
          [(⟨6, 2, 0, 6⟩, Request.saveDraft (some (Token.signed 1))
              ⟨some (IdArg.oid 1), some "T2", none, UrlField.absent⟩),
           (⟨7, 3, 0, 7⟩, Request.publish (some (Token.signed 2))
              ⟨some (IdArg.oid 1), some "X", none, UrlField.absent⟩)]).sessions,
        s'.id = 1 → s'.status = Status.published :=
  ⟨by decide,
    ((published_is_stable sampleBcrypt
      [(⟨5, 1, 0, 5⟩, Request.publish (some (Token.signed 1)) ⟨none, some "T", some "x", UrlField.absent⟩)]
      [(⟨6, 2, 0, 6⟩, Request.saveDraft (some (Token.signed 1))
          ⟨some (IdArg.oid 1), some "T2", none, UrlField.absent⟩),
       (⟨7, 3, 0, 7⟩, Request.publish (some (Token.signed 2))
          ⟨some (IdArg.oid 1), some "X", none, UrlField.absent⟩)]).2.2.1
      ⟨1, 1, "T", ["x"], none, Status.published, 5, 5⟩ (by decide) rfl).2⟩

/-! ## Login and registration -/

theorem login_invalid (B : Bcrypt) (σ : Store) (e p : String) (he : e ≠ "") (hp : p ≠ "")
    (h : ∀ u ∈ σ.users, u.email = e → B.compare p u.password_hash = false) :
    login B σ (some e) (some p) = (σ, badRequest "Invalid credentials") := by
  unfold login
  simp only [he, hp, or_self, if_false]
  cases hf : σ.users.find? (fun u => u.email == e) with
  | none => rfl
  | some user =>
    have hm : user ∈ σ.users := List.mem_of_find?_eq_some hf
    have hemail : user.email = e := by simpa using List.find?_some hf
    simp [h user hm hemail]

/-- C9: for every store and non-empty emails and passwords, a login with an email that no
user has and a login with an email that a user has but a password that `bcrypt.compare`
rejects against the stored hash get the same response, status 400 with body
'Invalid credentials', which carries no token; the store is unchanged, and the same
holds for the requests served by the application. -/
theorem login_failures_identical (B : Bcrypt) (env : Env) (σ : Store) (e₁ p₁ e₂ p₂ : String)
    (he₁ : e₁ ≠ "") (hp₁ : p₁ ≠ "") (he₂ : e₂ ≠ "") (hp₂ : p₂ ≠ "")
    (hunknown : ∀ u ∈ σ.users, u.email ≠ e₁)
    (_hknown : ∃ u ∈ σ.users, u.email = e₂)
    (hwrong : ∀ u ∈ σ.users, u.email = e₂ → B.compare p₂ u.password_hash = false) :
    login B σ (some e₁) (some p₁) = (σ, ⟨400, Body.error "Invalid credentials"⟩)
    ∧ login B σ (some e₂) (some p₂) = (σ, ⟨400, Body.error "Invalid credentials"⟩)
    ∧ (login B σ (some e₁) (some p₁)).2 = (login B σ (some e₂) (some p₂)).2
    ∧ handle B env σ (Request.login (some e₁) (some p₁))
        = handle B env σ (Request.login (some e₂) (some p₂))
    ∧ (∀ tok id em, (login B σ (some e₁) (some p₁)).2.body ≠ Body.auth tok id em)
    ∧ (∀ tok id em, (login B σ (some e₂) (some p₂)).2.body ≠ Body.auth tok id em) := by
  have h1 := login_invalid B σ e₁ p₁ he₁ hp₁ (fun u hu he => absurd he (hunknown u hu))
  have h2 := login_invalid B σ e₂ p₂ he₂ hp₂ hwrong
  refine ⟨h1, h2, by rw [h1, h2], ?_, ?_, ?_⟩
  · show login B σ (some e₁) (some p₁) = login B σ (some e₂) (some p₂)
    rw [h1, h2]
  · intro tok id em
    rw [h1]
    simp [badRequest]
  · intro tok id em
    rw [h2]
    simp [badRequest]

/-- C9 on the sample store: an unknown email, and the email of user 1 with a wrong
password. -/
theorem login_failures_identical_witness :
    (login sampleBcrypt sampleStore (some "nobody@x.com") (some "pw")).2
      = (login sampleBcrypt sampleStore (some "a@x.com") (some "wrong")).2
    ∧ (login sampleBcrypt sampleStore (some "a@x.com") (some "pw")).2.status = 200 :=
  ⟨(login_failures_identical sampleBcrypt sampleEnv sampleStore "nobody@x.com" "pw" "a@x.com"
      "wrong" (by decide) (by decide) (by decide) (by decide) (by decide) (by decide)
      (by decide)).2.2.1, by decide⟩

theorem saveUser_fresh (σ : Store) (u : User)
    (h : ∀ v ∈ σ.users, v.id ≠ u.id ∧ v.email ≠ u.email) :
    saveUser σ u = some ⟨σ.users ++ [u], σ.sessions⟩ := by
  have : σ.users.any (fun v => v.id == u.id || v.email == u.email) = false := by
    rw [List.any_eq_false]
    intro v hv
    simp [(h v hv).1, (h v hv).2]
  simp [saveUser, this]

theorem mem_saveUser {σ σ' : Store} {u : User} (h : saveUser σ u = some σ') :
    σ'.users = σ.users ++ [u] ∧ σ'.sessions = σ.sessions
      ∧ ∀ v ∈ σ.users, v.email ≠ u.email := by
  unfold saveUser at h
  split at h
  · exact absurd h (by simp)
  · rename_i hany
    simp only [Option.some.injEq] at h
    subst h
    refine ⟨rfl, rfl, ?_⟩
    intro v hv he
    exact hany (List.any_eq_true.2 ⟨v, hv, by simp [he]⟩)

/-- What every request keeps of the users: none is removed or altered, and emails stay
pairwise distinct. -/
theorem register_users (B : Bcrypt) (env : Env) (σ : Store) (e p : Option String) :
    (∀ u ∈ σ.users, u ∈ (register B env σ e p).1.users)
    ∧ ((σ.users.map (fun u => u.email)).Nodup →
        ((register B env σ e p).1.users.map (fun u => u.email)).Nodup) := by
  unfold register
  split
  · split
    · exact ⟨fun _ h => h, id⟩
    · split
      · exact ⟨fun _ h => h, id⟩
      · dsimp only
        split
        · exact ⟨fun _ h => h, id⟩
        · rename_i hsave
          obtain ⟨hu, -, hfresh⟩ := mem_saveUser hsave
          refine ⟨fun u h => by rw [hu]; exact List.mem_append_left _ h, fun hnd => ?_⟩
          rw [hu, List.map_append, List.nodup_append]
          refine ⟨hnd, by simp, ?_⟩
          intro a ha hb
          obtain ⟨v, hv, rfl⟩ := List.mem_map.1 ha
          simp only [List.map_cons, List.map_nil, List.mem_singleton] at hb
          exact hfresh v hv hb
  · exact ⟨fun _ h => h, id⟩

theorem saveDraft_users (env : Env) (σ : Store) (u : ObjectId) (body : SessionInput) :
    (saveDraft env σ u body).1.users = σ.users := by
  unfold saveDraft
  split
  · rfl
  · split
    · rfl
    · split
      · rfl
      · rfl
      · dsimp only
        split
        · rfl
        · rename_i hsave
          exact (mem_saveSession hsave).2.1

theorem publish_users (env : Env) (σ : Store) (u : ObjectId) (body : SessionInput) :
    (publish env σ u body).1.users = σ.users := by
  unfold publish
  split
  · rfl
  · split
    · rfl
    · split
      · rfl
      · rfl
      · dsimp only
        split
        · rfl
        · rename_i hsave
          exact (mem_saveSession hsave).2.1

theorem authenticateToken_users (auth : Option Token) (σ : Store)
    (next : ObjectId → Store × Response) (h : ∀ u, (next u).1.users = σ.users) :
    (authenticateToken auth σ next).1.users = σ.users := by
  unfold authenticateToken
  split
  · rfl
  · split
    · rfl
    · exact h _

theorem handle_users (B : Bcrypt) (env : Env) (σ : Store) (r : Request) :
    (∀ u ∈ σ.users, u ∈ (handle B env σ r).1.users)
    ∧ ((σ.users.map (fun u => u.email)).Nodup →
        ((handle B env σ r).1.users.map (fun u => u.email)).Nodup) := by
  have same : ∀ σ' : Store, σ'.users = σ.users →
      (∀ u ∈ σ.users, u ∈ σ'.users)
      ∧ ((σ.users.map (fun u => u.email)).Nodup → (σ'.users.map (fun u => u.email)).Nodup) := by
    intro σ' h
    rw [h]
    exact ⟨fun _ h => h, id⟩
  cases r with
  | register e p => exact register_users B env σ e p
  | login e p => exact same _ (by rw [handle, login_store])
  | listPublished => exact same _ rfl
  | listMine auth => exact same _ (authenticateToken_users auth σ _ (fun _ => rfl))
  | getMine auth id => exact same _ (authenticateToken_users auth σ _ (fun _ => rfl))
  | saveDraft auth body =>
    exact same _ (authenticateToken_users auth σ _ (fun u => saveDraft_users env σ u body))
  | publish auth body =>
    exact same _ (authenticateToken_users auth σ _ (fun u => publish_users env σ u body))

theorem run_users (B : Bcrypt) : ∀ (t : List (Env × Request)) (σ : Store),
    (∀ u ∈ σ.users, u ∈ (run B σ t).users)
    ∧ ((σ.users.map (fun u => u.email)).Nodup →
        ((run B σ t).users.map (fun u => u.email)).Nodup)
  | [], _ => ⟨fun _ h => h, id⟩
  | (env, r) :: t, σ => by
    have h1 := handle_users B env σ r
    have h2 := run_users B t (handle B env σ r).1
    exact ⟨fun u hu => h2.1 u (h1.1 u hu), fun h => h2.2 (h1.2 h)⟩

theorem register_conflict (B : Bcrypt) (env : Env) (σ : Store) (e p : String) (he : e ≠ "")
    (hp : p ≠ "") (h : ∃ u ∈ σ.users, u.email = e) :
    register B env σ (some e) (some p) = (σ, badRequest "User already exists") := by
  obtain ⟨u, hu, hue⟩ := h
  unfold register
  simp only [he, hp, or_self, if_false]
  cases hf : σ.users.find? (fun u => u.email == e) with
  | some _ => rfl
  | none =>
    rw [List.find?_eq_none] at hf
    exact absurd (by simpa using hue) (hf u hu)

theorem register_fresh (B : Bcrypt) (env : Env) (σ : Store) (e p : String) (he : e ≠ "")
    (hp : p ≠ "") (hemail : ∀ u ∈ σ.users, u.email ≠ e)
    (hid : ∀ u ∈ σ.users, u.id ≠ env.objectId) :
    register B env σ (some e) (some p)
      = (⟨σ.users ++ [⟨env.objectId, e, B.hash p env.salt, env.now⟩], σ.sessions⟩,
          ⟨201, Body.auth (jwtSign env.objectId) env.objectId e⟩) := by
  have hf : σ.users.find? (fun u => u.email == e) = none := by
    rw [List.find?_eq_none]
    intro u hu
    simpa using hemail u hu
  have hs := saveUser_fresh σ ⟨env.objectId, e, B.hash p env.salt, env.now⟩
    (fun v hv => ⟨hid v hv, hemail v hv⟩)
  simp [register, he, hp, hf, hs]

theorem register_missing_field (B : Bcrypt) (env : Env) (σ : Store) (e p : Option String)
    (h : e = none ∨ e = some "" ∨ p = none ∨ p = some "") :
    register B env σ e p = (σ, badRequest "Email and password required") := by
  unfold register
  rcases h with h | h | h | h <;> subst h
  · rfl
  · cases p <;> simp
  · cases e <;> rfl
  · cases e <;> simp

/-- C10: for every store and non-empty email and password, when no user has the email
(and the id generated for the new user is unused), `register` answers 201 with a token
and appends exactly one user, with that email and the hash of the password; after it, in
every store reached by any further requests, `register` with the same email fails with
status 400, issues no token and leaves the store unchanged, whatever the password, and
with 'User already exists' when the password is non-empty; in every store reached from
the empty store the emails of the users are pairwise distinct; and `register` with an
absent or empty email or password answers 400 'Email and password required' and changes
nothing. -/
theorem register_email_unique (B : Bcrypt) (env : Env) (σ : Store) (e p : String)
    (he : e ≠ "") (hp : p ≠ "") :
    ((∀ u ∈ σ.users, u.email ≠ e) → (∀ u ∈ σ.users, u.id ≠ env.objectId) →
      register B env σ (some e) (some p)
        = (⟨σ.users ++ [⟨env.objectId, e, B.hash p env.salt, env.now⟩], σ.sessions⟩,
            ⟨201, Body.auth (jwtSign env.objectId) env.objectId e⟩)
      ∧ ∀ (t : List (Env × Request)) (env' : Env) (p' : Option String),
          (register B env' (run B (register B env σ (some e) (some p)).1 t) (some e) p').1
            = run B (register B env σ (some e) (some p)).1 t
          ∧ (register B env' (run B (register B env σ (some e) (some p)).1 t)
              (some e) p').2.status = 400
          ∧ (∀ tok id em,
              (register B env' (run B (register B env σ (some e) (some p)).1 t)
                (some e) p').2.body ≠ Body.auth tok id em)
          ∧ (∀ q, p' = some q → q ≠ "" →
              (register B env' (run B (register B env σ (some e) (some p)).1 t)
                (some e) p').2 = ⟨400, Body.error "User already exists"⟩))
    ∧ (∀ t : List (Env × Request), ((run B Store.empty t).users.map (fun u => u.email)).Nodup)
    ∧ (∀ e' p' : Option String, (e' = none ∨ e' = some "" ∨ p' = none ∨ p' = some "") →
        register B env σ e' p' = (σ, ⟨400, Body.error "Email and password required"⟩)) := by
  refine ⟨?_, ?_, ?_⟩
  · intro hemail hid
    have hreg := register_fresh B env σ e p he hp hemail hid
    refine ⟨hreg, ?_⟩
    intro t env' p'
    have hmem : ∃ u ∈ (run B (register B env σ (some e) (some p)).1 t).users, u.email = e := by
      refine ⟨⟨env.objectId, e, B.hash p env.salt, env.now⟩, ?_, rfl⟩
      apply (run_users B t _).1
      rw [hreg]
      simp
    by_cases hq : p' = none ∨ p' = some ""
    · have := register_missing_field B env'
        (run B (register B env σ (some e) (some p)).1 t) (some e) p' (Or.inr (Or.inr hq))
      rw [this]
      refine ⟨rfl, rfl, by simp [badRequest], ?_⟩
      intro q hq' hne
      rcases hq with h | h
      · rw [h] at hq'
        exact absurd hq' (by simp)
      · rw [h] at hq'
        exact absurd (Option.some.inj hq').symm hne
    · cases hp' : p' with
      | none => exact absurd (Or.inl hp') hq
      | some q =>
        have hne : q ≠ "" := fun h => hq (Or.inr (h ▸ hp'))
        have := register_conflict B env' (run B (register B env σ (some e) (some p)).1 t)
          e q he hne hmem
        rw [this]
        exact ⟨rfl, rfl, by simp [badRequest], fun _ _ _ => rfl⟩
  · intro t
    exact (run_users B t Store.empty).2 (by simp [Store.empty])
  · intro e' p' h
    exact register_missing_field B env σ e' p' h

/-- C10 on the sample store: a new email is registered, and after a further request a
second registration with it is refused. -/
theorem register_email_unique_witness :
    (register sampleBcrypt sampleEnv sampleStore (some "c@x.com") (some "pw")).2.status = 201
    ∧ (register sampleBcrypt ⟨9, 14, 1, 9⟩
        (run sampleBcrypt
          (register sampleBcrypt sampleEnv sampleStore (some "c@x.com") (some "pw")).1
          [(⟨8, 13, 0, 8⟩, Request.login (some "c@x.com") (some "pw"))])
        (some "c@x.com") (some "other")).2 = ⟨400, Body.error "User already exists"⟩ :=
  ⟨congrArg (fun r => r.2.status)
      ((register_email_unique sampleBcrypt sampleEnv sampleStore "c@x.com" "pw" (by decide)
        (by decide)).1 (by decide) (by decide)).1,
    (((register_email_unique sampleBcrypt sampleEnv sampleStore "c@x.com" "pw" (by decide)
        (by decide)).1 (by decide) (by decide)).2
      [(⟨8, 13, 0, 8⟩, Request.login (some "c@x.com") (some "pw"))] ⟨9, 14, 1, 9⟩
      (some "other")).2.2.2 "other" rfl (by decide)⟩

/-! ## Client auto-save -/

namespace Client

/-- After an edit the only pending timeout is the one the edit started, and its callback
was created in the render before the edit. -/
theorem handleInputChange_timers (e : Editor) (hwf : e.WF) (field : Field) (value : String) :
    (handleInputChange e field value).timers
      = [(e.lastTimer + 1, ⟨e.currentSession, e.editingId⟩)] := by
  have hnil : (match e.autoSaveTimer with
      | some id => clearTimeout id e.timers
      | none => e.timers) = [] := by
    cases h : e.autoSaveTimer with
    | none =>
      cases ht : e.timers with
      | nil => rfl
      | cons t ts =>
        have := (hwf t (by rw [ht]; exact List.mem_cons_self _ _)).1
        rw [h] at this
        exact absurd this (by simp)
    | some id =>
      show clearTimeout id e.timers = []
      unfold clearTimeout
      rw [List.filter_eq_nil_iff]
      intro t ht
      have := (hwf t ht).1
      rw [h] at this
      simp [Option.some.inj this]
  simp only [handleInputChange, hnil, List.nil_append]

theorem handleInputChange_wf (e : Editor) (hwf : e.WF) (field : Field) (value : String) :
    (handleInputChange e field value).WF := by
  intro t ht
  rw [handleInputChange_timers e hwf] at ht
  rw [List.mem_singleton.1 ht]
  exact ⟨rfl, Nat.le_refl _⟩

theorem timeout_wf (e : Editor) (hwf : e.WF) (id : Nat) : (timeout e id).1.WF := by
  unfold timeout
  split
  · exact hwf
  · intro t ht
    exact hwf t (List.mem_filter.1 ht).1

/-- What the code does when the countdown of an edit elapses with no further edit: it
tests the title and posts the fields of the render before the edit, and the countdown of
no other timeout issues a call. -/
theorem timeout_after_edit (e : Editor) (hwf : e.WF) (field : Field) (value : String) :
    (timeout (handleInputChange e field value) (e.lastTimer + 1)).2
      = autoSave ⟨e.currentSession, e.editingId⟩
    ∧ ∀ id, id ≠ e.lastTimer + 1 → (timeout (handleInputChange e field value) id).2 = [] := by
  have ht := handleInputChange_timers e hwf field value
  constructor
  · simp [timeout, ht]
  · intro id hid
    have : (e.lastTimer + 1 == id) = false := by simpa using Ne.symm hid
    simp [timeout, ht, this]

/-- C11 fails on the code at three edits. In a fresh editor, typing the title "Yoga"
leaves a non-blank title, yet when the countdown elapses no call is issued. After that,
setting the tags to "calm" and letting the countdown elapse issues one call, but with the
tags of before the edit (empty), not "calm"; the countdown of the first edit, rearmed by
the second, issues nothing. In an editor on session 7 with title "Yoga", clearing the
title leaves a blank title, yet the elapsed countdown posts the title "Yoga". -/
theorem autoSave_posts_state_before_edit :
    ((handleInputChange Editor.init Field.title "Yoga").currentSession
        = ⟨"Yoga", "", ""⟩
      ∧ trim "Yoga" ≠ ""
      ∧ (timeout (handleInputChange Editor.init Field.title "Yoga") 1).2 = [])
    ∧ ((handleInputChange (handleInputChange Editor.init Field.title "Yoga")
          Field.tags "calm").currentSession = ⟨"Yoga", "calm", ""⟩
      ∧ (timeout (handleInputChange (handleInputChange Editor.init Field.title "Yoga")
          Field.tags "calm") 2).2 = [⟨none, some "Yoga", some "", UrlField.str ""⟩]
      ∧ (timeout (handleInputChange (handleInputChange Editor.init Field.title "Yoga")
          Field.tags "calm") 1).2 = [])
    ∧ ((handleInputChange ⟨⟨"Yoga", "calm", ""⟩, some 7, none, [], 0⟩
          Field.title "").currentSession = ⟨"", "calm", ""⟩
      ∧ trim "" = ""
      ∧ (timeout (handleInputChange ⟨⟨"Yoga", "calm", ""⟩, some 7, none, [], 0⟩
          Field.title "") 1).2 = [⟨some (IdArg.oid 7), some "Yoga", some "calm", UrlField.str ""⟩]) := by
  decide

end Client

end Arvyax
